import Mathlib

set_option maxRecDepth 100000

/-!
# Verification of the wa-proxy webhook router

Shallow embedding of the wa-proxy repository: a Node.js webhook proxy that
authenticates Meta WhatsApp webhook events (HMAC signature header), sends an
immediate 200 acknowledgment, fans the raw body out to observer sinks
(Chatwoot, 3CX), and routes text messages either to an AI backend or through a
per-conversation human-handoff path.

The JavaScript values flowing through the program are modelled by a `Json`
inductive type; `JSONParse` / `stringifyJson` model the runtime's `JSON.parse`
and `JSON.stringify` on the fragment the program exchanges (numeric literals
restricted to integers, which covers every payload shape the program builds or
inspects).  Stateful handler code is modelled as a pure function from the
request plus an oracle describing every outbound fetch result, returning the
ordered trace of externally visible events.
-/

namespace WaProxy

/-- JavaScript/JSON values as produced by `JSON.parse`.  Object fields keep
insertion order (as JS objects do); the parser collapses duplicate keys
keeping the last value, so field lists are duplicate-free in parsed values.
Numbers are restricted to integers: every literal the program itself builds or
matches on is a string, object, or array, so this fragment is faithful for the
program's own traffic. -/
inductive Json where
  | null : Json
  | bool : Bool → Json
  | num : Int → Json
  | str : String → Json
  | arr : List Json → Json
  | obj : List (String × Json) → Json
deriving Repr, Inhabited

mutual

/-- Structural boolean equality on `Json` (nested inductive, so the
`DecidableEq` instance is built by hand from this function). -/
def jeq : Json → Json → Bool
  | .null, .null => true
  | .bool a, .bool b => a == b
  | .num a, .num b => a == b
  | .str a, .str b => a == b
  | .arr xs, .arr ys => jeqList xs ys
  | .obj fs, .obj gs => jeqFields fs gs
  | _, _ => false

/-- Element-wise `jeq` on lists. -/
def jeqList : List Json → List Json → Bool
  | [], [] => true
  | x :: xs, y :: ys => jeq x y && jeqList xs ys
  | _, _ => false

/-- Field-wise `jeq` on association lists. -/
def jeqFields : List (String × Json) → List (String × Json) → Bool
  | [], [] => true
  | (k, v) :: fs, (k', v') :: gs => k == k' && jeq v v' && jeqFields fs gs
  | _, _ => false

end

mutual

theorem jeq_eq : ∀ a b, jeq a b = true → a = b
  | .null, .null, _ => rfl
  | .bool a, .bool b, h => by simpa [jeq] using congrArg Json.bool (by simpa [jeq] using h)
  | .num a, .num b, h => congrArg Json.num (by simpa [jeq] using h)
  | .str a, .str b, h => congrArg Json.str (by simpa [jeq] using h)
  | .arr xs, .arr ys, h => congrArg Json.arr (jeqList_eq xs ys (by simpa [jeq] using h))
  | .obj fs, .obj gs, h => congrArg Json.obj (jeqFields_eq fs gs (by simpa [jeq] using h))

theorem jeqList_eq : ∀ xs ys, jeqList xs ys = true → xs = ys
  | [], [], _ => rfl
  | x :: xs, y :: ys, h => by
    have h' := h
    simp only [jeqList, Bool.and_eq_true] at h'
    exact congrArg₂ List.cons (jeq_eq x y h'.1) (jeqList_eq xs ys h'.2)

theorem jeqFields_eq : ∀ fs gs, jeqFields fs gs = true → fs = gs
  | [], [], _ => rfl
  | (k, v) :: fs, (k', v') :: gs, h => by
    have h' := h
    simp only [jeqFields, Bool.and_eq_true, beq_iff_eq] at h'
    have hk : k = k' := h'.1.1
    have hv : v = v' := jeq_eq v v' h'.1.2
    have ht : fs = gs := jeqFields_eq fs gs h'.2
    rw [hk, hv, ht]

end

mutual

theorem jeq_refl : ∀ a, jeq a a = true
  | .null => rfl
  | .bool a => by simp [jeq]
  | .num a => by simp [jeq]
  | .str a => by simp [jeq]
  | .arr xs => by simpa [jeq] using jeqList_refl xs
  | .obj fs => by simpa [jeq] using jeqFields_refl fs

theorem jeqList_refl : ∀ xs, jeqList xs xs = true
  | [] => rfl
  | x :: xs => by simp [jeqList, jeq_refl x, jeqList_refl xs]

theorem jeqFields_refl : ∀ fs, jeqFields fs fs = true
  | [] => rfl
  | (k, v) :: fs => by simp [jeqFields, jeq_refl v, jeqFields_refl fs]

end

instance : DecidableEq Json := fun a b =>
  if h : jeq a b = true then .isTrue (jeq_eq a b h)
  else .isFalse (fun e => h (e ▸ jeq_refl a))

instance {ε α : Type} [DecidableEq ε] [DecidableEq α] : DecidableEq (Except ε α) :=
  fun a b =>
    match a, b with
    | .error u, .error v =>
      if h : u = v then .isTrue (by rw [h]) else .isFalse (by simp [h])
    | .ok x, .ok y =>
      if h : x = y then .isTrue (by rw [h]) else .isFalse (by simp [h])
    | .error _, .ok _ => .isFalse (by simp)
    | .ok _, .error _ => .isFalse (by simp)

/-- JS truthiness of a value (`if (v)`): `null`, `false`, `0` and `""` are
falsy, every other object/array/string/number is truthy. -/
def truthy : Json → Bool
  | .null => false
  | .bool b => b
  | .num n => n != 0
  | .str s => s != ""
  | .arr _ => true
  | .obj _ => true

/-- Plain property access `x.f` on a JS value: throws (`.error`) when the
value is `null`, yields the field for objects, and yields `undefined`
(`.ok none`) for any other primitive or for a missing field. -/
def jsMember : Json → String → Except Unit (Option Json)
  | .null, _ => .error ()
  | .obj fs, k => .ok (fs.lookup k)
  | _, _ => .ok none

/-- Optional-chained property access `x?.f` lifted to `Option Json`, where
`none` stands for JS `undefined`/short-circuited `null`: never throws. -/
def optMember (x : Option Json) (k : String) : Option Json :=
  match x with
  | none => none
  | some .null => none
  | some (.obj fs) => fs.lookup k
  | some _ => none

/-- Optional-chained index access `x?.[n]`: arrays index positionally, plain
objects fall back to the string key (JS property lookup), anything else gives
`undefined`. -/
def optIndex (x : Option Json) (n : Nat) : Option Json :=
  match x with
  | none => none
  | some .null => none
  | some (.arr xs) => xs.get? n
  | some (.obj fs) => fs.lookup (toString n)
  | some _ => none

mutual

/-- JS string coercion of a value inside a template literal
(`` `${v}` ``): strings pass through, numbers and booleans print, arrays join
their elements with commas (`null` elements print as the empty string, as JS
`Array.prototype.toString` does), plain objects print `[object Object]`. -/
def jsCoerceString : Json → String
  | .null => "null"
  | .bool b => if b then "true" else "false"
  | .num n => toString n
  | .str s => s
  | .arr xs => String.intercalate "," (jsCoerceList xs)
  | .obj _ => "[object Object]"

/-- Element-wise coercion used by array joining; JS maps `null` elements to
the empty string inside `Array.prototype.join`. -/
def jsCoerceList : List Json → List String
  | [] => []
  | .null :: xs => "" :: jsCoerceList xs
  | x :: xs => jsCoerceString x :: jsCoerceList xs

end

/-- Lower-case hex digit, as used by `JSON.stringify` control-character
escapes. -/
def hexDigit (n : Nat) : Char :=
  if n < 10 then Char.ofNat ('0'.toNat + n) else Char.ofNat ('a'.toNat + (n - 10))

/-- `JSON.stringify` escaping of one string character: quote, backslash and
control characters are escaped, everything else passes through verbatim. -/
def escChar (c : Char) : String :=
  if c = '"' then "\\\""
  else if c = '\\' then "\\\\"
  else if c = '\n' then "\\n"
  else if c = '\t' then "\\t"
  else if c = '\r' then "\\r"
  else if c = Char.ofNat 8 then "\\b"
  else if c = Char.ofNat 12 then "\\f"
  else if c.toNat < 32 then
    "\\u00" ++ (hexDigit (c.toNat / 16)).toString ++ (hexDigit (c.toNat % 16)).toString
  else c.toString

/-- `JSON.stringify` rendering of a string literal. -/
def escapeString (s : String) : String :=
  "\"" ++ String.join (s.data.map escChar) ++ "\""

mutual

/-- `JSON.stringify(v)` with no spacing argument: compact output, object
fields in insertion order. -/
def stringifyJson : Json → String
  | .null => "null"
  | .bool b => if b then "true" else "false"
  | .num n => toString n
  | .str s => escapeString s
  | .arr xs => "[" ++ stringifyList xs ++ "]"
  | .obj fs => "\x7b" ++ stringifyFields fs ++ "\x7d"

/-- Comma-joined array elements for `stringifyJson`. -/
def stringifyList : List Json → String
  | [] => ""
  | [x] => stringifyJson x
  | x :: xs => stringifyJson x ++ "," ++ stringifyList xs

/-- Comma-joined `"key":value` fields for `stringifyJson`. -/
def stringifyFields : List (String × Json) → String
  | [] => ""
  | [(k, v)] => escapeString k ++ ":" ++ stringifyJson v
  | (k, v) :: fs => escapeString k ++ ":" ++ stringifyJson v ++ "," ++ stringifyFields fs

end

/-- JSON insignificant whitespace skipping (`JSON.parse` accepts space, tab,
newline, carriage return between tokens). -/
def skipWs : List Char → List Char
  | c :: cs => if c = ' ' ∨ c = '\t' ∨ c = '\n' ∨ c = '\r' then skipWs cs else c :: cs
  | [] => []

/-- Hex digit value for `\uXXXX` escapes. -/
def hexVal (c : Char) : Option Nat :=
  if '0' ≤ c ∧ c ≤ '9' then some (c.toNat - '0'.toNat)
  else if 'a' ≤ c ∧ c ≤ 'f' then some (c.toNat - 'a'.toNat + 10)
  else if 'A' ≤ c ∧ c ≤ 'F' then some (c.toNat - 'A'.toNat + 10)
  else none

/-- Parse the body of a JSON string literal (after the opening quote),
decoding the escape sequences `JSON.parse` accepts and rejecting raw control
characters and malformed escapes, as `JSON.parse` does.  Returns the decoded
characters and the rest of the input. -/
def parseStrBody : Nat → List Char → Option (List Char × List Char)
  | 0, _ => none
  | _ + 1, [] => none
  | fuel + 1, c :: rest =>
    if c = '"' then some ([], rest)
    else if c = '\\' then
      match rest with
      | [] => none
      | e :: r =>
        let dec : Option (Char × List Char) :=
          if e = '"' then some ('"', r)
          else if e = '\\' then some ('\\', r)
          else if e = '/' then some ('/', r)
          else if e = 'n' then some ('\n', r)
          else if e = 't' then some ('\t', r)
          else if e = 'r' then some ('\r', r)
          else if e = 'b' then some (Char.ofNat 8, r)
          else if e = 'f' then some (Char.ofNat 12, r)
          else if e = 'u' then
            match r with
            | h1 :: h2 :: h3 :: h4 :: r' =>
              match hexVal h1, hexVal h2, hexVal h3, hexVal h4 with
              | some a, some b, some c', some d =>
                some (Char.ofNat (((a * 16 + b) * 16 + c') * 16 + d), r')
              | _, _, _, _ => none
            | _ => none
          else none
        match dec with
        | none => none
        | some (ch, r') =>
          match parseStrBody fuel r' with
          | none => none
          | some (s, rem) => some (ch :: s, rem)
    else if c.toNat < 32 then none
    else
      match parseStrBody fuel rest with
      | none => none
      | some (s, rem) => some (c :: s, rem)

/-- Parse a run of decimal digits. -/
def parseDigits : List Char → List Char × List Char
  | c :: cs =>
    if c.isDigit then
      let (ds, rest) := parseDigits cs
      (c :: ds, rest)
    else ([], c :: cs)
  | [] => ([], [])

/-- Digits to a natural number. -/
def digitsToNat : List Char → Nat
  | [] => 0
  | ds => ds.foldl (fun acc c => acc * 10 + (c.toNat - '0'.toNat)) 0

/-- JS object-field accumulation: a later duplicate key overwrites the value
but keeps the earlier key's position.  Here `fs` lists the *later* fields, so
inserting key `k` in front either prepends or, when a later duplicate exists,
drops this earlier value in favour of the later one at this position. -/
def objInsert (k : String) (v : Json) (fs : List (String × Json)) : List (String × Json) :=
  match fs.lookup k with
  | some v' => (k, v') :: fs.filter (fun p => p.1 ≠ k)
  | none => (k, v) :: fs

mutual

/-- Recursive-descent JSON value parser mirroring `JSON.parse` on the
integer-number fragment: literals `null`/`true`/`false`, strings with escape
decoding, integer numbers (no leading zeros), arrays and objects with
insignificant whitespace.  `fuel` strictly dominates the recursion; the
top-level wrapper supplies enough for any input. -/
def parseVal : Nat → List Char → Option (Json × List Char)
  | 0, _ => none
  | fuel + 1, cs =>
    match skipWs cs with
    | [] => none
    | c :: rest =>
      if c = 'n' then
        match rest with
        | 'u' :: 'l' :: 'l' :: r => some (.null, r)
        | _ => none
      else if c = 't' then
        match rest with
        | 'r' :: 'u' :: 'e' :: r => some (.bool true, r)
        | _ => none
      else if c = 'f' then
        match rest with
        | 'a' :: 'l' :: 's' :: 'e' :: r => some (.bool false, r)
        | _ => none
      else if c = '"' then
        match parseStrBody fuel rest with
        | none => none
        | some (s, r) => some (.str (String.mk s), r)
      else if c = '-' then
        match rest with
        | d :: _ =>
          if d.isDigit then
            let (ds, r) := parseDigits rest
            match ds with
            | '0' :: _ :: _ => none
            | _ => some (.num (-(digitsToNat ds : Int)), r)
          else none
        | [] => none
      else if c.isDigit then
        let (ds, r) := parseDigits (c :: rest)
        match ds with
        | '0' :: _ :: _ => none
        | _ => some (.num (digitsToNat ds : Int), r)
      else if c = '[' then
        match skipWs rest with
        | ']' :: r => some (.arr [], r)
        | _ => parseElems fuel rest |>.map (fun p => (Json.arr p.1, p.2))
      else if c = '\x7b' then
        match skipWs rest with
        | '\x7d' :: r => some (.obj [], r)
        | _ => parseFields fuel rest |>.map (fun p => (Json.obj p.1, p.2))
      else none

/-- Parse one-or-more comma-separated array elements up to `]`. -/
def parseElems : Nat → List Char → Option (List Json × List Char)
  | 0, _ => none
  | fuel + 1, cs =>
    match parseVal fuel cs with
    | none => none
    | some (v, r) =>
      match skipWs r with
      | ',' :: r2 =>
        match parseElems fuel r2 with
        | none => none
        | some (vs, r3) => some (v :: vs, r3)
      | ']' :: r2 => some ([v], r2)
      | _ => none

/-- Parse one-or-more comma-separated `"key": value` fields up to the closing
brace.  Duplicate keys keep the last value at the first key's position, as JS
object construction does. -/
def parseFields : Nat → List Char → Option (List (String × Json) × List Char)
  | 0, _ => none
  | fuel + 1, cs =>
    match skipWs cs with
    | '"' :: r =>
      match parseStrBody fuel r with
      | none => none
      | some (k, r1) =>
        match skipWs r1 with
        | ':' :: r2 =>
          match parseVal fuel r2 with
          | none => none
          | some (v, r3) =>
            let key := String.mk k
            match skipWs r3 with
            | ',' :: r4 =>
              match parseFields fuel r4 with
              | none => none
              | some (fs, r5) => some (objInsert key v fs, r5)
            | '\x7d' :: r4 => some ([(key, v)], r4)
            | _ => none
        | _ => none
    | _ => none

end

/-- `JSON.parse(s)`: whole-input parse with surrounding whitespace allowed;
`none` models the thrown `SyntaxError`. -/
def JSONParse (s : String) : Option Json :=
  match parseVal (2 * s.length + 8) s.data with
  | some (v, rest) => if skipWs rest = [] then some v else none
  | none => none

/-! ## Signature verifier (`verifySignature`, src/server.js:45-55 and the
same function in both variants of the second source file)

The HMAC-SHA256 primitive (`crypto.createHmac(...).digest("hex")`) is part of
the Node runtime, not of this repository, so it enters the embedding as the
parameter `hmacHex`; the verifier's own logic (header/secret presence checks,
`"sha256=" + hex` formatting, and `crypto.timingSafeEqual` wrapped in
`try/catch`) is translated from the source. -/

/-- `crypto.timingSafeEqual(Buffer.from(a), Buffer.from(b))`: throws
(`.error`) when the lengths differ, otherwise compares contents.  Characters
stand in for bytes: both equality and the length comparison coincide with the
byte-level ones for the outcome of the surrounding `try/catch`. -/
def timingSafeEqualChecked (a b : List Char) : Except Unit Bool :=
  if a.length ≠ b.length then .error () else .ok (a == b)

/-- `verifySignature(rawBody, headerSig)`: `false` on a missing/empty header
or missing/empty secret, otherwise a caught constant-time comparison of the
header against `"sha256=" + hmacHex(secret, rawBody)`. -/
def verifySignature (hmacHex : String → String → String) (secret : String)
    (rawBody : String) (headerSig : Option String) : Bool :=
  match headerSig with
  | none => false
  | some sig =>
    if sig = "" ∨ secret = "" then false
    else
      let expected := "sha256=" ++ hmacHex secret rawBody
      match timingSafeEqualChecked sig.data expected.data with
      | .error _ => false
      | .ok r => r

/-! ## Handoff keyword classifier (`handoffRegex`, both variants of the
second source file) -/

/-- `s.split(",")` on characters: JS `"".split(",")` is `[""]`. -/
def splitCommaAux : List Char → List Char → List String
  | [], acc => [String.mk acc.reverse]
  | c :: cs, acc =>
    if c = ',' then String.mk acc.reverse :: splitCommaAux cs []
    else splitCommaAux cs (c :: acc)

/-- `HANDOFF_KEYWORDS.split(",")`. -/
def splitComma (s : String) : List String := splitCommaAux s.data []

/-- A whitespace character as trimmed by JS `String.prototype.trim`. -/
def isWsChar (c : Char) : Bool := c = ' ' ∨ c = '\t' ∨ c = '\n' ∨ c = '\r'

/-- JS `s.trim()`: strip whitespace from both ends. -/
def jsTrim (s : String) : String :=
  String.mk (((s.data.dropWhile isWsChar).reverse.dropWhile isWsChar).reverse)

/-- The keyword list as compiled at startup:
`HANDOFF_KEYWORDS.split(",").map(s => s.trim()).filter(Boolean)`. -/
def keywordParts (cfgKeywords : String) : List String :=
  ((splitComma cfgKeywords).map jsTrim).filter (fun s => s ≠ "")

/-- ASCII-style lowercasing, modelling the `"i"` regex flag. -/
def lowerStr (s : String) : String := String.mk (s.data.map Char.toLower)

/-- Contiguous-substring test on character lists. -/
def isInfixList (p t : List Char) : Bool :=
  match t with
  | [] => p.isEmpty
  | _ :: cs => p.isPrefixOf t || isInfixList p cs

/-- `handoffRegex.test(text)` where
`handoffRegex = new RegExp(parts.join("|"), "i")`.  When the filtered keyword
list is empty the joined pattern is the empty string and `new RegExp("", "i")`
matches **every** input (the empty pattern matches at position 0), hence the
`true` branch.  A non-empty pattern is an alternation of the literal keywords
(the configured keywords are plain words without regex metacharacters), i.e.
a case-insensitive substring test for any keyword. -/
def handoffTest (cfgKeywords text : String) : Bool :=
  match keywordParts cfgKeywords with
  | [] => true
  | ps => ps.any fun p => isInfixList (lowerStr p).data (lowerStr text).data

/-! ## Message extraction and summary injection -/

/-- The optional chain
`x?.entry?.[0]?.changes?.[0]?.value?.messages` shared by the routing loops
(`src/server.js:161`, second file lines 254 and 476) and by
`injectSummaryIntoPayload` (second file line 154). -/
def msgsNode (payload : Json) : Option Json :=
  optMember (optMember (optIndex (optMember (optIndex
    (optMember (some payload) "entry") 0) "changes") 0) "value") "messages"

/-- `const messages = <chain> || []` followed by `for (const m of messages)`:
`undefined` and falsy values give the empty list, arrays iterate their
elements, strings iterate their characters (as JS `for..of` does), and any
other truthy value is not iterable — the loop throws, modelled by `.error`. -/
def extractMessages (payload : Json) : Except Unit (List Json) :=
  match msgsNode payload with
  | none => .ok []
  | some j =>
    if truthy j then
      match j with
      | .arr xs => .ok xs
      | .str s => .ok (s.data.map (fun c => Json.str c.toString))
      | _ => .error ()
    else .ok []

/-- Update field `k` of an object in place (no-op when the receiver is not an
object or lacks the field), modelling mutation through an alias into the
parsed tree. -/
def updMember (j : Json) (k : String) (f : Json → Json) : Json :=
  match j with
  | .obj fs => .obj (fs.map (fun p => if p.1 = k then (p.1, f p.2) else p))
  | _ => j

/-- Update index 0 in place: arrays positionally, plain objects through the
string key `"0"` (the JS property fallback), otherwise a no-op. -/
def updIndex0 (j : Json) (f : Json → Json) : Json :=
  match j with
  | .arr (x :: xs) => .arr (f x :: xs)
  | .obj _ => updMember j "0" f
  | _ => j

/-- In-place update of the node reached by the `msgsNode` access chain. -/
def updMsgsNode (p : Json) (f : Json → Json) : Json :=
  updMember p "entry" (fun e => updIndex0 e (fun e0 =>
    updMember e0 "changes" (fun c => updIndex0 c (fun c0 =>
      updMember c0 "value" (fun v => updMember v "messages" f)))))

/-- The injection guard `m?.type === "text" && m?.text?.body` (truthy body
required). -/
def injectableMsg (m : Json) : Bool :=
  (optMember (some m) "type" == some (Json.str "text")) &&
  (match optMember (optMember (some m) "text") "body" with
   | some v => truthy v
   | none => false)

/-- The in-place mutation
``m.text.body = `${m.text.body}\n\n---\n[Summary for agents]\n${summary}` ``
(template literals coerce a non-string body to a string). -/
def injectMsgBody (summary : String) (m : Json) : Json :=
  updMember m "text" (fun t => updMember t "body" (fun b =>
    Json.str (jsCoerceString b ++ "\n\n---\n[Summary for agents]\n" ++ summary)))

/-- `for (const m of msgs) { if (guard) { mutate; break } }`: rewrite the
first injectable message, leave the rest untouched. -/
def mutateFirstMsg (summary : String) : List Json → List Json
  | [] => []
  | m :: ms =>
    if injectableMsg m then injectMsgBody summary m :: ms
    else m :: mutateFirstMsg summary ms

/-- `injectSummaryIntoPayload(rawBuffer, placeholderSummary)` (second source
file lines 151-170): parse a copy, locate the first text message under the
first entry's first change, splice the agent-facing annotation into its body,
and re-serialize the whole parsed object.  A parse failure is caught and
returns the original bytes; note that when parsing succeeds the function
always returns `JSON.stringify` of the parsed object, whether or not any
message was mutated. -/
def injectSummaryIntoPayload (raw : String) (placeholderSummary : String) : String :=
  match JSONParse raw with
  | none => raw
  | some obj =>
    match msgsNode obj with
    | some (.arr _) => stringifyJson (updMsgsNode obj (fun msgs =>
        match msgs with
        | .arr xs => .arr (mutateFirstMsg placeholderSummary xs)
        | other => other))
    | _ => stringifyJson obj

/-! ## Outbound calls, events, and handler configuration

Each `fetch` to a downstream service is resolved by an oracle describing the
network's behaviour at that call: either the promise rejects (`exn`, a
transport exception) or a response arrives with an `ok` flag, status, and
body.  A handler run produces the ordered trace of externally visible events:
the HTTP status written to the webhook source and every outbound call made. -/

/-- Result of one `fetch`: rejection or a response. -/
inductive FetchResult where
  | exn (msg : String)
  | resp (ok : Bool) (status : Nat) (body : String)
deriving Repr, DecidableEq

/-- Which fan-out call site a forward belongs to (the two sinks have distinct
call sites in the source). -/
inductive Sink where
  | chatwoot
  | threeCx
deriving Repr, DecidableEq

/-- Externally visible events of one handler run, in program order. -/
inductive Ev where
  | status (code : Nat)
  | forward (sink : Sink) (url : String) (payload : String)
  | aiCall (waId : Json) (text : String)
  | waSend (waId : Json) (body : Json)
  | templateSend (dst : Json) (isTemplate : Bool)
  | summaryCall (waId : Json)
deriving Repr, DecidableEq

/-- Network behaviour for every outbound call site, keyed by the call's
arguments. -/
structure Oracles where
  forwardResp : String → String → FetchResult
  aiResp : Json → String → FetchResult
  sendResp : Json → Json → FetchResult
  templateResp : Json → Bool → FetchResult
  summaryResp : Json → FetchResult

/-- Environment configuration of one deployed process (`process.env`
destructuring at the top of each variant).  `none` models an unset variable. -/
structure Config where
  secret : String
  keywords : String
  chatwootUrl : Option String
  threeCxUrl : Option String
  threeCxPhoneId : Option String
  threeCxToken : Option String
  handoffTemplateName : String
  summaryUrl : Option String

/-- JS truthiness of a possibly-unset string variable. -/
def jsTruthyStr : Option String → Bool
  | none => false
  | some s => s != ""

/-- Result value of `forwardRawJSON` (`{skipped:true}`, `{ok:true}`,
`{ok:false,status}`, `{ok:false,error}`). -/
inductive FwdResult where
  | skipped
  | okRes
  | failStatus (code : Nat)
  | errorRes (msg : String)
deriving Repr, DecidableEq

/-- `forwardRawJSON(url, rawBody, extraHeaders)` (src/server.js:72-90 and both
variants): a falsy url short-circuits to `{skipped:true}` with no network
call; otherwise the POST is attempted (the `forward` event) and any non-ok
status or thrown transport exception is caught and returned as a failure
result — the function itself never throws. -/
def forwardRawJSONEv (o : Oracles) (sink : Sink) (url : Option String)
    (body : String) : List Ev × FwdResult :=
  match url with
  | none => ([], .skipped)
  | some u =>
    if u = "" then ([], .skipped)
    else
      ([Ev.forward sink u body],
       match o.forwardResp u body with
       | .exn m => .errorRes m
       | .resp ok st _ => if ok then .okRes else .failStatus st)

/-- `Promise.allSettled([...])` over per-target `forwardRawJSON` calls: every
target is attempted independently and all results are collected (the second
source file line 458-465 instantiates this with the 3CX and Chatwoot
targets). -/
def fanOut (o : Oracles) (targets : List (Sink × Option String)) (raw : String) :
    List (List Ev × FwdResult) :=
  targets.map fun t => forwardRawJSONEv o t.1 t.2 raw

/-- `getAIReply({waId, text})` (src/server.js:106-124 and both variants): the
whole body is wrapped in `try/catch`, so a rejected fetch, a non-ok status, a
JSON parse failure of the response, or a thrown property access on a `null`
body all collapse to `null`; `data.reply || null` additionally maps a falsy
`reply` to `null`.  Returns the emitted events and the reply value. -/
def getAIReplyEv (o : Oracles) (waId : Json) (text : String) :
    List Ev × Option Json :=
  ([Ev.aiCall waId text],
    match o.aiResp waId text with
    | .exn _ => none
    | .resp ok _ body =>
      if !ok then none
      else
        match JSONParse body with
        | none => none
        | some data =>
          match jsMember data "reply" with
          | .error _ => none
          | .ok none => none
          | .ok (some v) => if truthy v then some v else none)

/-- `sendWaText(waId, body)` / `sendWaTextFromMain` (src/server.js:92-104,
second file lines 116-128 and 390-402): the fetch has **no** `try/catch`, so a
non-ok response is only logged but a rejected fetch propagates the exception
to the caller (second component `true`); the call itself (the `waSend` event)
has begun either way. -/
def sendWaTextEv (o : Oracles) (dst : Json) (body : Json) : List Ev × Bool :=
  ([Ev.waSend dst body],
   match o.sendResp dst body with
   | .exn _ => true
   | .resp _ _ _ => false)

/-- `getAISummary(waId)` (second file lines 424-443): missing endpoint
configuration, a caught rejection, a non-ok status, an unparseable body, or a
falsy `data.summary` all yield the fallback `"Summary not available."`. -/
def getAISummaryEv (cfg : Config) (o : Oracles) (waId : Json) :
    List Ev × Json :=
  if !(jsTruthyStr cfg.summaryUrl) then ([], Json.str "Summary not available.")
  else
    ([Ev.summaryCall waId],
      match o.summaryResp waId with
      | .exn _ => Json.str "Summary not available."
      | .resp ok _ body =>
        if !ok then Json.str "Summary not available."
        else
          match JSONParse body with
          | none => Json.str "Summary not available."
          | some data =>
            match jsMember data "summary" with
            | .error _ => Json.str "Summary not available."
            | .ok none => Json.str "Summary not available."
            | .ok (some v) => if truthy v then v else Json.str "Summary not available.")

/-- `sendTemplateFrom3cxNumber({to})` (second file lines 173-222): a no-op
returning `false` when the 3CX sender credentials are not both set; otherwise
a template send is preferred when a template name is configured, falling back
to a free-form text send on a non-ok template response.  Neither fetch is
guarded by `try/catch`, so a rejected fetch propagates (second component
`none`; `some b` is a normal return of `b`). -/
def sendTemplateEv (cfg : Config) (o : Oracles) (dst : Json) :
    List Ev × Option Bool :=
  if !(jsTruthyStr cfg.threeCxPhoneId && jsTruthyStr cfg.threeCxToken) then ([], some false)
  else if cfg.handoffTemplateName != "" then
    match o.templateResp dst true with
    | .exn _ => ([Ev.templateSend dst true], none)
    | .resp ok _ _ =>
      if ok then ([Ev.templateSend dst true], some true)
      else
        match o.templateResp dst false with
        | .exn _ => ([Ev.templateSend dst true, Ev.templateSend dst false], none)
        | .resp ok2 _ _ => ([Ev.templateSend dst true, Ev.templateSend dst false], some ok2)
  else
    match o.templateResp dst false with
    | .exn _ => ([Ev.templateSend dst false], none)
    | .resp ok2 _ _ => ([Ev.templateSend dst false], some ok2)

/-! ## Per-message routing -/

/-- `m.text?.body`: the first access is on an object (guaranteed at the use
sites by the preceding `m.type === "text"` check), the second is optional. -/
def msgTextRaw (m : Json) : Option Json :=
  optMember (optMember (some m) "text") "body"

/-- `(m.text?.body || "").trim()`: a missing or falsy body trims the empty
string; a truthy non-string body has no `.trim` method and throws. -/
def msgTextVal (m : Json) : Except Unit String :=
  match msgTextRaw m with
  | none => .ok ""
  | some v =>
    if truthy v then
      match v with
      | .str s => .ok (jsTrim s)
      | _ => .error ()
    else .ok ""

/-- The guard prefix shared by all three routing loops
(`if (m.type !== "text") continue; const waId = m.from;
const text = (m.text?.body || "").trim(); if (!waId || !text) continue;`):
`.error` models a thrown access, `.ok none` a `continue`, and
`.ok (some (w, text))` a message that reaches the routing body. -/
def msgGuard (m : Json) : Except Unit (Option (Json × String)) :=
  match jsMember m "type" with
  | .error _ => .error ()
  | .ok ty =>
    if ty != some (Json.str "text") then .ok none
    else
      match jsMember m "from" with
      | .error _ => .error ()
      | .ok waId? =>
        match msgTextVal m with
        | .error _ => .error ()
        | .ok text =>
          match waId? with
          | none => .ok none
          | some w =>
            if !truthy w || text == "" then .ok none
            else .ok (some (w, text))

/-- One iteration of the `src/server.js` routing loop (lines 164-179): skip
non-text messages and messages without a truthy sender or text, otherwise call
the AI backend and relay a truthy reply.  The second component is `true` when
the iteration threw (a `.type` access on `null`, `.trim()` on a truthy
non-string, or a rejected send fetch), which aborts the surrounding loop. -/
def stepS (o : Oracles) (m : Json) : List Ev × Bool :=
  match msgGuard m with
  | .error _ => ([], true)
  | .ok none => ([], false)
  | .ok (some (w, text)) =>
    let ai := getAIReplyEv o w text
    match ai.2 with
    | none => (ai.1, false)
    | some rv =>
      let se := sendWaTextEv o w rv
      (ai.1 ++ se.1, se.2)

/-- `for (const m of messages) {...}` for the `src/server.js` loop: an
uncaught throw in one iteration aborts the remaining iterations. -/
def routeLoopS (o : Oracles) : List Json → List Ev × Bool
  | [] => ([], false)
  | m :: ms =>
    let (evs, crashed) := stepS o m
    if crashed then (evs, true)
    else
      let (evs', c') := routeLoopS o ms
      (evs ++ evs', c')

/-- The `app.post("/wa")` handler of `src/server.js` (lines 128-180): verify
the signature (401 on failure), acknowledge with 200, forward the raw body to
Chatwoot when configured, then parse and route.  The returned list is the
ordered trace of events. -/
def handlerS (cfg : Config) (o : Oracles) (hmacHex : String → String → String)
    (raw : String) (sig : Option String) : List Ev :=
  if verifySignature hmacHex cfg.secret raw sig = false then [Ev.status 401]
  else
    let fwd := (forwardRawJSONEv o .chatwoot cfg.chatwootUrl raw).1
    Ev.status 200 :: fwd ++
      (match JSONParse raw with
       | none => []
       | some payload =>
         match extractMessages payload with
         | .error _ => []
         | .ok msgs => (routeLoopS o msgs).1)

/-- Per-conversation handoff flags: the in-memory `handoff` map, holding the
keys that were ever set to `true`. -/
abbrev HandoffMap := List Json

/-- One iteration of the first-variant routing loop in the second source file
(lines 255-288): on a handoff-keyword match, set the flag, forward the
summary-injected payload to the 3CX webhook when configured, and send the
window-opening template; otherwise take the AI path unless the conversation is
in handoff mode.  Returns the updated flags, the events, and whether the
iteration threw. -/
def stepA (cfg : Config) (o : Oracles) (raw : String) (st : HandoffMap)
    (m : Json) : HandoffMap × List Ev × Bool :=
  match msgGuard m with
  | .error _ => (st, [], true)
  | .ok none => (st, [], false)
  | .ok (some (w, text)) =>
    if handoffTest cfg.keywords text then
      let st' := w :: st
      let evs₁ :=
        if jsTruthyStr cfg.threeCxUrl then
          (forwardRawJSONEv o .threeCx cfg.threeCxUrl
            (injectSummaryIntoPayload raw "this is the summary")).1
        else []
      let te := sendTemplateEv cfg o w
      (st', evs₁ ++ te.1, te.2.isNone)
    else if st.contains w then (st, [], false)
    else
      let ai := getAIReplyEv o w text
      match ai.2 with
      | none => (st, ai.1, false)
      | some rv =>
        let se := sendWaTextEv o w rv
        (st, ai.1 ++ se.1, se.2)

/-- The first-variant routing loop, threading the handoff flags. -/
def routeLoopA (cfg : Config) (o : Oracles) (raw : String) :
    HandoffMap → List Json → HandoffMap × List Ev × Bool
  | st, [] => (st, [], false)
  | st, m :: ms =>
    let r := stepA cfg o raw st m
    if r.2.2 then (r.1, r.2.1, true)
    else
      let r' := routeLoopA cfg o raw r.1 ms
      (r'.1, r.2.1 ++ r'.2.1, r'.2.2)

/-- The `app.post("/wa")` handler of the first variant in the second source
file (lines 225-289): verify, acknowledge, forward the raw body to Chatwoot,
then parse and route with handoff handling. -/
def handlerA (cfg : Config) (o : Oracles) (hmacHex : String → String → String)
    (st : HandoffMap) (raw : String) (sig : Option String) :
    HandoffMap × List Ev :=
  if verifySignature hmacHex cfg.secret raw sig = false then (st, [Ev.status 401])
  else
    let fwd := (forwardRawJSONEv o .chatwoot cfg.chatwootUrl raw).1
    match JSONParse raw with
    | none => (st, Ev.status 200 :: fwd)
    | some payload =>
      match extractMessages payload with
      | .error _ => (st, Ev.status 200 :: fwd)
      | .ok msgs =>
        let r := routeLoopA cfg o raw st msgs
        (r.1, Ev.status 200 :: fwd ++ r.2.1)

/-- One iteration of the second-variant routing loop in the second source file
(lines 477-497): on a handoff-keyword match, set the flag, send the
"connecting you with a human" text, fetch the summary and send it; otherwise
the AI path unless in handoff mode. -/
def stepB (cfg : Config) (o : Oracles) (st : HandoffMap) (m : Json) :
    HandoffMap × List Ev × Bool :=
  match msgGuard m with
  | .error _ => (st, [], true)
  | .ok none => (st, [], false)
  | .ok (some (w, text)) =>
    if handoffTest cfg.keywords text then
      let st' := w :: st
      let se₂ := sendWaTextEv o w (Json.str "Okay — connecting you with a human.")
      if se₂.2 then (st', se₂.1, true)
      else
        let sm := getAISummaryEv cfg o w
        let se₄ := sendWaTextEv o w
          (Json.str ("Summary so far:\n" ++ jsCoerceString sm.2))
        (st', se₂.1 ++ sm.1 ++ se₄.1, se₄.2)
    else if st.contains w then (st, [], false)
    else
      let ai := getAIReplyEv o w text
      match ai.2 with
      | none => (st, ai.1, false)
      | some rv =>
        let se := sendWaTextEv o w rv
        (st, ai.1 ++ se.1, se.2)

/-- The second-variant routing loop, threading the handoff flags. -/
def routeLoopB (cfg : Config) (o : Oracles) :
    HandoffMap → List Json → HandoffMap × List Ev × Bool
  | st, [] => (st, [], false)
  | st, m :: ms =>
    let r := stepB cfg o st m
    if r.2.2 then (r.1, r.2.1, true)
    else
      let r' := routeLoopB cfg o r.1 ms
      (r'.1, r.2.1 ++ r'.2.1, r'.2.2)

/-- The `app.post("/wa")` handler of the second variant in the second source
file (lines 446-498): verify, acknowledge, fan the raw body out to 3CX and
Chatwoot, then parse and route. -/
def handlerB (cfg : Config) (o : Oracles) (hmacHex : String → String → String)
    (st : HandoffMap) (raw : String) (sig : Option String) :
    HandoffMap × List Ev :=
  if verifySignature hmacHex cfg.secret raw sig = false then (st, [Ev.status 401])
  else
    let fwd :=
      ((fanOut o [(Sink.threeCx, cfg.threeCxUrl), (Sink.chatwoot, cfg.chatwootUrl)] raw).map
        Prod.fst).flatten
    match JSONParse raw with
    | none => (st, Ev.status 200 :: fwd)
    | some payload =>
      match extractMessages payload with
      | .error _ => (st, Ev.status 200 :: fwd)
      | .ok msgs =>
        let r := routeLoopB cfg o st msgs
        (r.1, Ev.status 200 :: fwd ++ r.2.1)

/-- Process a sequence of inbound events through the first-variant handler,
threading the process-lifetime handoff map. -/
def runA (cfg : Config) (o : Oracles) (hmacHex : String → String → String) :
    HandoffMap → List (String × Option String) → HandoffMap × List Ev
  | st, [] => (st, [])
  | st, (raw, sig) :: es =>
    let r := handlerA cfg o hmacHex st raw sig
    let r' := runA cfg o hmacHex r.1 es
    (r'.1, r.2 ++ r'.2)

/-- Process a sequence of inbound events through the second-variant handler. -/
def runB (cfg : Config) (o : Oracles) (hmacHex : String → String → String) :
    HandoffMap → List (String × Option String) → HandoffMap × List Ev
  | st, [] => (st, [])
  | st, (raw, sig) :: es =>
    let r := handlerB cfg o hmacHex st raw sig
    let r' := runB cfg o hmacHex r.1 es
    (r'.1, r.2 ++ r'.2)

/-- The HTTP statuses written to the webhook source within a trace. -/
def statusEvs (evs : List Ev) : List Nat :=
  evs.filterMap fun e =>
    match e with
    | .status n => some n
    | _ => none

/-! ## Crash-freedom of the server loop under well-formed messages -/

/-- Did a fetch reject (transport exception)? -/
def isExnResp : FetchResult → Bool
  | .exn _ => true
  | .resp _ _ _ => false

/-- A message value whose routing guard cannot throw: not JS `null` (so
`m.type` is safe) and, if a `text.body` field is present and truthy, it is a
string (so `.trim()` is safe). -/
def wfMsg (m : Json) : Bool :=
  (match m with
   | .null => false
   | _ => true) &&
  (match msgTextRaw m with
   | none => true
   | some (.str _) => true
   | some v => !truthy v)

/-! ## Single-character mutations (bytes of the ASCII signature header and
body are modelled by characters) -/

/-- `b` differs from `a` in exactly one position and has the same length. -/
def oneCharMutation (a b : String) : Bool :=
  (a.data.length == b.data.length) &&
  ((a.data.zip b.data).countP (fun p => p.1 != p.2) == 1)

/-! ## Concrete fixtures used by witnesses and counterexamples -/

/-- A constant stand-in for the keyed-hash primitive (any function works for
the verifier's accept path, which only compares recomputed strings). -/
def hmacConstH : String → String → String := fun _ _ => "h"

/-- A keyed hash that depends on both arguments, used where a mutation of the
body must change the digest. -/
def hmacConcat : String → String → String := fun s b => s ++ b

/-- A network in which every outbound call succeeds and the AI backend
replies `"r"`. -/
def oraclesOk : Oracles :=
  ⟨fun _ _ => .resp true 200 "ok",
   fun _ _ => .resp true 200 "\x7b\"reply\":\"r\"\x7d",
   fun _ _ => .resp true 200 "ok",
   fun _ _ => .resp true 200 "ok",
   fun _ => .resp true 200 "ok"⟩

/-- Like `oraclesOk` but every messaging-API send rejects with a transport
exception. -/
def oraclesSendExn : Oracles := { oraclesOk with sendResp := fun _ _ => .exn "boom" }

/-- Like `oraclesOk` but exactly the forward target `"cx"` fails by transport
exception. -/
def oracleOneFail : Oracles :=
  { oraclesOk with forwardResp := fun u _ => if u = "cx" then .exn "down" else .resp true 200 "" }

/-- Minimal configuration: secret `"k"`, default keywords, no optional
integrations. -/
def cfgPlain : Config :=
  ⟨"k", "human,agent,representative,support,help", none, none, none, none, "", none⟩

/-- Full configuration with Chatwoot (`"cw"`), 3CX webhook (`"cx"`), and 3CX
sender credentials. -/
def cfgFull : Config :=
  ⟨"k", "human,agent,representative,support,help", some "cw", some "cx",
   some "p", some "t", "", none⟩

/-- A webhook body with two text messages: `"hi"` from `"A"` and `"I need a
human"` from `"B"`. -/
def rawTwoMsgs : String :=
  "\x7b\"entry\":[\x7b\"changes\":[\x7b\"value\":\x7b\"messages\":[\x7b\"type\":\"text\",\"from\":\"A\",\"text\":\x7b\"body\":\"hi\"\x7d\x7d,\x7b\"type\":\"text\",\"from\":\"B\",\"text\":\x7b\"body\":\"I need a human\"\x7d\x7d]\x7d\x7d]\x7d]\x7d"

/-- A webhook body with two plain text messages: `"hi"` from `"A"` and
`"yo"` from `"B"` (no handoff keywords). -/
def rawPlainTwo : String :=
  "\x7b\"entry\":[\x7b\"changes\":[\x7b\"value\":\x7b\"messages\":[\x7b\"type\":\"text\",\"from\":\"A\",\"text\":\x7b\"body\":\"hi\"\x7d\x7d,\x7b\"type\":\"text\",\"from\":\"B\",\"text\":\x7b\"body\":\"yo\"\x7d\x7d]\x7d\x7d]\x7d]\x7d"

/-- One well-formed text message value. -/
def msgA : Json :=
  Json.obj [("type", .str "text"), ("from", .str "A"),
    ("text", .obj [("body", .str "hi")])]

/-- A payload that parses but contains no messages; note the space, which a
re-serialization does not reproduce. -/
def c4raw : String := "\x7b\"a\": 1\x7d"

/-- `Array.isArray` applied to the node the injection chain locates
(second source file line 155). -/
def msgsIsArray (p : Json) : Bool :=
  match msgsNode p with
  | some (.arr _) => true
  | _ => false

/-- The claim's precondition "payload containing no message of kind text",
read over the same access chain the code uses: some message under the first
entry's first change has `type === "text"`. -/
def payloadHasTextMsg (p : Json) : Bool :=
  match msgsNode p with
  | some (.arr xs) => xs.any (fun m => optMember (some m) "type" == some (Json.str "text"))
  | _ => false

/-- A payload whose first entry's first change carries `v` as its `value`,
with arbitrary additional changes `cs` and entries `es` after it. -/
def payloadWithTails (v : Json) (cs es : List Json) : Json :=
  Json.obj [("entry", Json.arr ((Json.obj [("changes",
    Json.arr ((Json.obj [("value", v)]) :: cs))]) :: es))]

/-- The same payload with the later changes and entries removed. -/
def payloadFirstOnly (v : Json) : Json := payloadWithTails v [] []

/-- The message list the routing loops receive from a parsed payload. -/
def extractedMsgs (p : Json) : List Json :=
  match extractMessages p with
  | .ok ms => ms
  | .error _ => []

/-- One well-formed text message value from `"B"`. -/
def msgB : Json :=
  Json.obj [("type", .str "text"), ("from", .str "B"),
    ("text", .obj [("body", .str "yo")])]

/-! ## Helper lemmas about event shapes -/

theorem forwardRawJSONEv_mem {o : Oracles} {s : Sink} {url : Option String}
    {b : String} {e : Ev} (h : e ∈ (forwardRawJSONEv o s url b).1) :
    ∃ u, url = some u ∧ e = Ev.forward s u b := by
  unfold forwardRawJSONEv at h
  match url with
  | none => simp at h
  | some u =>
    by_cases hu : u = "" <;> simp [hu] at h
    exact ⟨u, rfl, h⟩

theorem sendWaTextEv_fst (o : Oracles) (d b : Json) :
    (sendWaTextEv o d b).1 = [Ev.waSend d b] := rfl

theorem sendTemplateEv_mem {cfg : Config} {o : Oracles} {d : Json} {e : Ev}
    (h : e ∈ (sendTemplateEv cfg o d).1) :
    e = Ev.templateSend d true ∨ e = Ev.templateSend d false := by
  unfold sendTemplateEv at h
  split at h
  · simp at h
  · split at h
    · split at h
      · simp_all
      · split at h
        · simp_all
        · split at h <;> simp_all
    · split at h <;> simp_all

theorem getAIReplyEv_fst (o : Oracles) (w : Json) (t : String) :
    (getAIReplyEv o w t).1 = [Ev.aiCall w t] := rfl

theorem getAISummaryEv_mem {cfg : Config} {o : Oracles} {w : Json} {e : Ev}
    (h : e ∈ (getAISummaryEv cfg o w).1) : e = Ev.summaryCall w := by
  unfold getAISummaryEv at h
  split at h <;> simp_all

/-- Shape of every event one first-variant loop iteration can emit; an
`aiCall` additionally certifies that the conversation was not in handoff mode
when the call was made. -/
theorem stepA_mem {cfg : Config} {o : Oracles} {raw : String} {st : HandoffMap}
    {m : Json} {e : Ev} (h : e ∈ (stepA cfg o raw st m).2.1) :
    (∃ u, e = Ev.forward Sink.threeCx u (injectSummaryIntoPayload raw "this is the summary")) ∨
    (∃ w t, e = Ev.aiCall w t ∧ st.contains w = false) ∨
    (∃ w b, e = Ev.waSend w b) ∨
    (∃ d bb, e = Ev.templateSend d bb) := by
  unfold stepA at h
  rcases hg : msgGuard m with u | og
  · simp [hg] at h
  · rcases og with _ | ⟨w, text⟩
    · simp [hg] at h
    · simp only [hg] at h
      by_cases hh : handoffTest cfg.keywords text
      · rw [if_pos hh] at h
        simp only [List.mem_append] at h
        rcases h with h | h
        · split at h
          · rcases forwardRawJSONEv_mem h with ⟨uu, _, he⟩
            exact Or.inl ⟨uu, he⟩
          · simp at h
        · rcases sendTemplateEv_mem h with he | he
          · exact Or.inr (Or.inr (Or.inr ⟨_, _, he⟩))
          · exact Or.inr (Or.inr (Or.inr ⟨_, _, he⟩))
      · rw [if_neg hh] at h
        by_cases hc : st.contains w
        · rw [if_pos hc] at h
          simp at h
        · rw [if_neg hc] at h
          simp only [getAIReplyEv_fst, sendWaTextEv_fst] at h
          split at h
          · simp at h
            exact Or.inr (Or.inl ⟨w, text, h, by simpa using hc⟩)
          · simp only [sendWaTextEv_fst, List.mem_append] at h
            rcases h with h | h
            · simp at h
              exact Or.inr (Or.inl ⟨w, text, h, by simpa using hc⟩)
            · simp at h
              exact Or.inr (Or.inr (Or.inl ⟨_, _, h⟩))

/-- Shape of every event one second-variant loop iteration can emit. -/
theorem stepB_mem {cfg : Config} {o : Oracles} {st : HandoffMap}
    {m : Json} {e : Ev} (h : e ∈ (stepB cfg o st m).2.1) :
    (∃ w t, e = Ev.aiCall w t ∧ st.contains w = false) ∨
    (∃ w b, e = Ev.waSend w b) ∨
    (∃ w, e = Ev.summaryCall w) := by
  unfold stepB at h
  rcases hg : msgGuard m with u | og
  · simp [hg] at h
  · rcases og with _ | ⟨w, text⟩
    · simp [hg] at h
    · simp only [hg] at h
      by_cases hh : handoffTest cfg.keywords text
      · rw [if_pos hh] at h
        split at h
        · simp only [sendWaTextEv_fst] at h
          simp at h
          exact Or.inr (Or.inl ⟨_, _, h⟩)
        · simp only [sendWaTextEv_fst, List.mem_append] at h
          rcases h with (h | h) | h
          · simp at h
            exact Or.inr (Or.inl ⟨_, _, h⟩)
          · exact Or.inr (Or.inr ⟨_, getAISummaryEv_mem h⟩)
          · simp at h
            exact Or.inr (Or.inl ⟨_, _, h⟩)
      · rw [if_neg hh] at h
        by_cases hc : st.contains w
        · rw [if_pos hc] at h
          simp at h
        · rw [if_neg hc] at h
          simp only [getAIReplyEv_fst, sendWaTextEv_fst] at h
          split at h
          · simp at h
            exact Or.inl ⟨w, text, h, by simpa using hc⟩
          · simp only [sendWaTextEv_fst, List.mem_append] at h
            rcases h with h | h
            · simp at h
              exact Or.inl ⟨w, text, h, by simpa using hc⟩
            · simp at h
              exact Or.inr (Or.inl ⟨_, _, h⟩)

/-- `handoff.set` only ever adds keys: one first-variant iteration preserves
membership. -/
theorem stepA_contains_mono {cfg : Config} {o : Oracles} {raw : String}
    {st : HandoffMap} {m k : Json} (hk : st.contains k = true) :
    (stepA cfg o raw st m).1.contains k = true := by
  unfold stepA
  rcases hg : msgGuard m with u | og
  · simpa [hg] using hk
  · rcases og with _ | ⟨w, text⟩
    · simpa [hg] using hk
    · simp only [hg]
      by_cases hh : handoffTest cfg.keywords text
      · rw [if_pos hh]
        have hmem : k ∈ st := by simpa using hk
        simp [hmem]
      · rw [if_neg hh]
        by_cases hc : st.contains w
        · rw [if_pos hc]
          exact hk
        · rw [if_neg hc]
          split <;> exact hk

/-- One second-variant iteration preserves handoff-map membership. -/
theorem stepB_contains_mono {cfg : Config} {o : Oracles}
    {st : HandoffMap} {m k : Json} (hk : st.contains k = true) :
    (stepB cfg o st m).1.contains k = true := by
  unfold stepB
  rcases hg : msgGuard m with u | og
  · simpa [hg] using hk
  · rcases og with _ | ⟨w, text⟩
    · simpa [hg] using hk
    · simp only [hg]
      by_cases hh : handoffTest cfg.keywords text
      · rw [if_pos hh]
        have hmem : k ∈ st := by simpa using hk
        split <;> simp [hmem]
      · rw [if_neg hh]
        by_cases hc : st.contains w
        · rw [if_pos hc]
          exact hk
        · rw [if_neg hc]
          split <;> exact hk

/-- Once a conversation id is in the handoff map, the first-variant loop never
emits an AI-backend call for it, and the id stays in the map. -/
theorem routeLoopA_handoff {cfg : Config} {o : Oracles} {raw : String}
    {k : Json} :
    ∀ {st : HandoffMap} {ms : List Json}, st.contains k = true →
      (routeLoopA cfg o raw st ms).1.contains k = true ∧
      ∀ t, Ev.aiCall k t ∉ (routeLoopA cfg o raw st ms).2.1 := by
  intro st ms
  induction ms generalizing st with
  | nil => intro hk; exact ⟨hk, by simp [routeLoopA]⟩
  | cons m ms ih =>
    intro hk
    have hmono := @stepA_contains_mono cfg o raw st m k hk
    simp only [routeLoopA]
    split
    · refine ⟨hmono, ?_⟩
      intro t ht
      rcases stepA_mem ht with ⟨u, he⟩ | ⟨w, t', he, hw⟩ | ⟨w, b, he⟩ | ⟨d, bb, he⟩ <;>
        first
        | exact Ev.noConfusion he
        | (cases he; simp at hw; exact hw (by simpa using hk))
    · rcases ih hmono with ⟨ih1, ih2⟩
      refine ⟨ih1, ?_⟩
      intro t ht
      simp only [List.mem_append] at ht
      rcases ht with ht | ht
      · rcases stepA_mem ht with ⟨u, he⟩ | ⟨w, t', he, hw⟩ | ⟨w, b, he⟩ | ⟨d, bb, he⟩ <;>
          first
          | exact Ev.noConfusion he
          | (cases he; simp at hw; exact hw (by simpa using hk))
      · exact ih2 t ht

/-- Once a conversation id is in the handoff map, the second-variant loop
never emits an AI-backend call for it, and the id stays in the map. -/
theorem routeLoopB_handoff {cfg : Config} {o : Oracles} {k : Json} :
    ∀ {st : HandoffMap} {ms : List Json}, st.contains k = true →
      (routeLoopB cfg o st ms).1.contains k = true ∧
      ∀ t, Ev.aiCall k t ∉ (routeLoopB cfg o st ms).2.1 := by
  intro st ms
  induction ms generalizing st with
  | nil => intro hk; exact ⟨hk, by simp [routeLoopB]⟩
  | cons m ms ih =>
    intro hk
    have hmono := @stepB_contains_mono cfg o st m k hk
    simp only [routeLoopB]
    split
    · refine ⟨hmono, ?_⟩
      intro t ht
      rcases stepB_mem ht with ⟨w, t', he, hw⟩ | ⟨w, b, he⟩ | ⟨w, he⟩ <;>
        first
        | exact Ev.noConfusion he
        | (cases he; simp at hw; exact hw (by simpa using hk))
    · rcases ih hmono with ⟨ih1, ih2⟩
      refine ⟨ih1, ?_⟩
      intro t ht
      simp only [List.mem_append] at ht
      rcases ht with ht | ht
      · rcases stepB_mem ht with ⟨w, t', he, hw⟩ | ⟨w, b, he⟩ | ⟨w, he⟩ <;>
          first
          | exact Ev.noConfusion he
          | (cases he; simp at hw; exact hw (by simpa using hk))
      · exact ih2 t ht

/-- Shape of every `src/server.js` loop-iteration event: one AI call,
optionally followed by one send. -/
theorem stepS_shape (o : Oracles) (m : Json) :
    (stepS o m).1 = [] ∨
    (∃ w t, (stepS o m).1 = [Ev.aiCall w t]) ∨
    (∃ w t b, (stepS o m).1 = [Ev.aiCall w t, Ev.waSend w b]) := by
  unfold stepS
  rcases hg : msgGuard m with u | og
  · exact Or.inl rfl
  · rcases og with _ | ⟨w, text⟩
    · exact Or.inl rfl
    · simp only [getAIReplyEv_fst, sendWaTextEv_fst]
      split
      · exact Or.inr (Or.inl ⟨w, text, rfl⟩)
      · exact Or.inr (Or.inr ⟨w, text, _, rfl⟩)

/-- Events of the `src/server.js` loop are AI calls and sends only. -/
theorem routeLoopS_mem {o : Oracles} {e : Ev} :
    ∀ {ms : List Json}, e ∈ (routeLoopS o ms).1 →
      (∃ w t, e = Ev.aiCall w t) ∨ (∃ w b, e = Ev.waSend w b) := by
  intro ms
  induction ms with
  | nil => intro h; simp [routeLoopS] at h
  | cons m ms ih =>
    intro h
    simp only [routeLoopS] at h
    have hstep : ∀ e, e ∈ (stepS o m).1 →
        (∃ w t, e = Ev.aiCall w t) ∨ (∃ w b, e = Ev.waSend w b) := by
      intro e' he'
      rcases stepS_shape o m with hs | ⟨w, t, hs⟩ | ⟨w, t, b, hs⟩ <;> rw [hs] at he'
      · simp at he'
      · simp at he'
        exact Or.inl ⟨w, t, he'⟩
      · simp at he'
        rcases he' with he' | he'
        · exact Or.inl ⟨w, t, he'⟩
        · exact Or.inr ⟨w, b, he'⟩
    split at h
    · exact hstep e h
    · simp only [List.mem_append] at h
      rcases h with h | h
      · exact hstep e h
      · exact ih h

/-- Events of the first-variant loop: 3CX forwards of the injected copy, AI
calls, sends, and template sends — never an acknowledgment and never a
Chatwoot forward. -/
theorem routeLoopA_mem {cfg : Config} {o : Oracles} {raw : String} {e : Ev} :
    ∀ {st : HandoffMap} {ms : List Json}, e ∈ (routeLoopA cfg o raw st ms).2.1 →
      (∃ u, e = Ev.forward Sink.threeCx u (injectSummaryIntoPayload raw "this is the summary")) ∨
      (∃ w t, e = Ev.aiCall w t) ∨ (∃ w b, e = Ev.waSend w b) ∨
      (∃ d bb, e = Ev.templateSend d bb) := by
  intro st ms
  induction ms generalizing st with
  | nil => intro h; simp [routeLoopA] at h
  | cons m ms ih =>
    intro h
    simp only [routeLoopA] at h
    have weaken : ∀ {e'}, e' ∈ (stepA cfg o raw st m).2.1 →
        (∃ u, e' = Ev.forward Sink.threeCx u (injectSummaryIntoPayload raw "this is the summary")) ∨
        (∃ w t, e' = Ev.aiCall w t) ∨ (∃ w b, e' = Ev.waSend w b) ∨
        (∃ d bb, e' = Ev.templateSend d bb) := by
      intro e' he'
      rcases stepA_mem he' with h1 | ⟨w, t, h2, _⟩ | h3 | h4
      · exact Or.inl h1
      · exact Or.inr (Or.inl ⟨w, t, h2⟩)
      · exact Or.inr (Or.inr (Or.inl h3))
      · exact Or.inr (Or.inr (Or.inr h4))
    split at h
    · exact weaken h
    · simp only [List.mem_append] at h
      rcases h with h | h
      · exact weaken h
      · exact ih h

/-- Events of the second-variant loop: AI calls, sends, and summary calls. -/
theorem routeLoopB_mem {cfg : Config} {o : Oracles} {e : Ev} :
    ∀ {st : HandoffMap} {ms : List Json}, e ∈ (routeLoopB cfg o st ms).2.1 →
      (∃ w t, e = Ev.aiCall w t) ∨ (∃ w b, e = Ev.waSend w b) ∨
      (∃ w, e = Ev.summaryCall w) := by
  intro st ms
  induction ms generalizing st with
  | nil => intro h; simp [routeLoopB] at h
  | cons m ms ih =>
    intro h
    simp only [routeLoopB] at h
    have weaken : ∀ {e'}, e' ∈ (stepB cfg o st m).2.1 →
        (∃ w t, e' = Ev.aiCall w t) ∨ (∃ w b, e' = Ev.waSend w b) ∨
        (∃ w, e' = Ev.summaryCall w) := by
      intro e' he'
      rcases stepB_mem he' with ⟨w, t, h1, _⟩ | h2 | h3
      · exact Or.inl ⟨w, t, h1⟩
      · exact Or.inr (Or.inl h2)
      · exact Or.inr (Or.inr h3)
    split at h
    · exact weaken h
    · simp only [List.mem_append] at h
      rcases h with h | h
      · exact weaken h
      · exact ih h

/-- Fan-out and forward events carry no acknowledgment. -/
theorem statusEvs_forwardRawJSONEv (o : Oracles) (sk : Sink)
    (url : Option String) (b : String) :
    statusEvs (forwardRawJSONEv o sk url b).1 = [] := by
  unfold forwardRawJSONEv
  match url with
  | none => rfl
  | some u => by_cases hu : u = "" <;> simp [hu, statusEvs]

/-- `statusEvs` distributes over concatenation. -/
theorem statusEvs_append (a b : List Ev) :
    statusEvs (a ++ b) = statusEvs a ++ statusEvs b := by
  simp [statusEvs]

/-- A list of events without acknowledgments contributes no statuses. -/
theorem statusEvs_eq_nil {evs : List Ev} (h : ∀ n, Ev.status n ∉ evs) :
    statusEvs evs = [] := by
  unfold statusEvs
  rw [List.filterMap_eq_nil_iff]
  intro e he
  match e with
  | .status n => exact absurd he (h n)
  | .forward _ _ _ => rfl
  | .aiCall _ _ => rfl
  | .waSend _ _ => rfl
  | .templateSend _ _ => rfl
  | .summaryCall _ => rfl

/-- No event of the `src/server.js` loop is an acknowledgment. -/
theorem routeLoopS_no_status {o : Oracles} {ms : List Json} :
    ∀ n, Ev.status n ∉ (routeLoopS o ms).1 := by
  intro n h
  rcases routeLoopS_mem h with ⟨w, t, he⟩ | ⟨w, b, he⟩ <;> exact Ev.noConfusion he

/-- No event of the first-variant loop is an acknowledgment. -/
theorem routeLoopA_no_status {cfg : Config} {o : Oracles} {raw : String}
    {st : HandoffMap} {ms : List Json} :
    ∀ n, Ev.status n ∉ (routeLoopA cfg o raw st ms).2.1 := by
  intro n h
  rcases routeLoopA_mem h with ⟨u, he⟩ | ⟨w, t, he⟩ | ⟨w, b, he⟩ | ⟨d, bb, he⟩ <;>
    exact Ev.noConfusion he

/-- No event of the second-variant loop is an acknowledgment. -/
theorem routeLoopB_no_status {cfg : Config} {o : Oracles}
    {st : HandoffMap} {ms : List Json} :
    ∀ n, Ev.status n ∉ (routeLoopB cfg o st ms).2.1 := by
  intro n h
  rcases routeLoopB_mem h with ⟨w, t, he⟩ | ⟨w, b, he⟩ | ⟨w, he⟩ <;>
    exact Ev.noConfusion he

/-- Every event of the second-variant fan-out is a forward of the raw body. -/
theorem fanOut_flatten_mem {o : Oracles} {ts : List (Sink × Option String)}
    {raw : String} {e : Ev}
    (h : e ∈ ((fanOut o ts raw).map Prod.fst).flatten) :
    ∃ sk u, e = Ev.forward sk u raw := by
  rw [List.mem_flatten] at h
  rcases h with ⟨l, hl, hel⟩
  simp only [fanOut, List.map_map, List.mem_map] at hl
  rcases hl with ⟨t, _, rfl⟩
  rcases forwardRawJSONEv_mem hel with ⟨u, _, he⟩
  exact ⟨t.1, u, he⟩

/-- After a verified signature, the `src/server.js` handler's trace starts
with the 200 acknowledgment. -/
theorem handlerS_ack {cfg : Config} {o : Oracles}
    {hmacHex : String → String → String} {raw : String} {sig : Option String}
    (hv : verifySignature hmacHex cfg.secret raw sig = true) :
    ∃ t, handlerS cfg o hmacHex raw sig = Ev.status 200 :: t := by
  unfold handlerS
  rw [hv]
  exact ⟨_, rfl⟩

/-- After a verified signature, the first-variant handler's trace starts with
the 200 acknowledgment. -/
theorem handlerA_ack {cfg : Config} {o : Oracles}
    {hmacHex : String → String → String} {st : HandoffMap} {raw : String}
    {sig : Option String}
    (hv : verifySignature hmacHex cfg.secret raw sig = true) :
    ∃ t, (handlerA cfg o hmacHex st raw sig).2 = Ev.status 200 :: t := by
  unfold handlerA
  rw [hv]
  simp only [Bool.true_eq_false, if_false]
  split
  · exact ⟨_, rfl⟩
  · split <;> exact ⟨_, rfl⟩

/-- After a verified signature, the second-variant handler's trace starts with
the 200 acknowledgment. -/
theorem handlerB_ack {cfg : Config} {o : Oracles}
    {hmacHex : String → String → String} {st : HandoffMap} {raw : String}
    {sig : Option String}
    (hv : verifySignature hmacHex cfg.secret raw sig = true) :
    ∃ t, (handlerB cfg o hmacHex st raw sig).2 = Ev.status 200 :: t := by
  unfold handlerB
  rw [hv]
  simp only [Bool.true_eq_false, if_false]
  split
  · exact ⟨_, rfl⟩
  · split <;> exact ⟨_, rfl⟩

/-- After a verified signature, the `src/server.js` handler acknowledges
exactly once with 200, whatever the downstream oracles do. -/
theorem handlerS_statusEvs {cfg : Config} {o : Oracles}
    {hmacHex : String → String → String} {raw : String} {sig : Option String}
    (hv : verifySignature hmacHex cfg.secret raw sig = true) :
    statusEvs (handlerS cfg o hmacHex raw sig) = [200] := by
  unfold handlerS
  rw [hv]
  simp only [Bool.true_eq_false, if_false]
  have h1 := statusEvs_forwardRawJSONEv o .chatwoot cfg.chatwootUrl raw
  have h2 : statusEvs (match JSONParse raw with
      | none => []
      | some payload =>
        match extractMessages payload with
        | .error _ => []
        | .ok msgs => (routeLoopS o msgs).1) = [] := by
    split
    · rfl
    · split
      · rfl
      · exact statusEvs_eq_nil fun n => routeLoopS_no_status n
  simp [statusEvs, List.filterMap_append] at h1 h2 ⊢
  exact ⟨h1, h2⟩

/-- After a verified signature, the second-variant handler acknowledges
exactly once with 200, whatever the downstream oracles do. -/
theorem handlerB_statusEvs {cfg : Config} {o : Oracles}
    {hmacHex : String → String → String} {st : HandoffMap} {raw : String}
    {sig : Option String}
    (hv : verifySignature hmacHex cfg.secret raw sig = true) :
    statusEvs (handlerB cfg o hmacHex st raw sig).2 = [200] := by
  unfold handlerB
  rw [hv]
  simp only [Bool.true_eq_false, if_false]
  have h1 : statusEvs ((fanOut o [(Sink.threeCx, cfg.threeCxUrl),
      (Sink.chatwoot, cfg.chatwootUrl)] raw).map Prod.fst).flatten = [] := by
    refine statusEvs_eq_nil fun n h => ?_
    rcases fanOut_flatten_mem h with ⟨sk, u, he⟩
    exact Ev.noConfusion he
  split
  · simp [statusEvs, List.filterMap_append] at h1 ⊢
    exact h1
  · split
    · simp [statusEvs, List.filterMap_append] at h1 ⊢
      exact h1
    · rename_i msgs hmsgs
      have h2 := @statusEvs_eq_nil ((routeLoopB cfg o st msgs).2.1)
        fun n => routeLoopB_no_status n
      simp [statusEvs, List.filterMap_append] at h1 h2 ⊢
      exact ⟨h1, h2⟩

theorem jsMember_ok_of_ne_null {m : Json} {k : String} (h : m ≠ Json.null) :
    ∃ v, jsMember m k = .ok v := by
  cases m
  case null => exact absurd rfl h
  all_goals exact ⟨_, rfl⟩

theorem msgTextVal_ok_of_wf {m : Json}
    (h : (match msgTextRaw m with
          | none => true
          | some (.str _) => true
          | some v => !truthy v) = true) :
    ∃ t, msgTextVal m = .ok t := by
  unfold msgTextVal
  rcases hb : msgTextRaw m with _ | v
  · simp
  · rw [hb] at h
    cases v with
    | str sv => by_cases ht : truthy (Json.str sv) <;> simp [ht]
    | null => simp [truthy]
    | bool b => simp_all [truthy]
    | num n => simp_all [truthy]
    | arr xs => simp_all [truthy]
    | obj fs => simp_all [truthy]

/-- A well-formed message never makes the guard prefix throw. -/
theorem msgGuard_no_error {m : Json} (hm : wfMsg m = true) :
    ∀ u, msgGuard m ≠ .error u := by
  intro u h
  unfold wfMsg at hm
  simp only [Bool.and_eq_true] at hm
  obtain ⟨h1, h2⟩ := hm
  have hmn : m ≠ Json.null := by
    intro e
    subst e
    simp at h1
  unfold msgGuard at h
  obtain ⟨vt, hvt⟩ := @jsMember_ok_of_ne_null m "type" hmn
  obtain ⟨vf, hvf⟩ := @jsMember_ok_of_ne_null m "from" hmn
  obtain ⟨tv, htv⟩ := msgTextVal_ok_of_wf h2
  rw [hvt, hvf, htv] at h
  rcases vf with _ | w
  · by_cases hty : (vt != some (Json.str "text")) = true
    · simp [hty] at h
    · simp only [Bool.not_eq_true] at hty
      simp [hty] at h
  · by_cases hty : (vt != some (Json.str "text")) = true
    · simp [hty] at h
    · simp only [Bool.not_eq_true] at hty
      by_cases hw : (!truthy w || tv == "") = true
      · simp [hty, hw] at h
      · simp only [Bool.not_eq_true] at hw
        simp [hty, hw] at h

/-- A rejected messaging-API fetch is the only way one `src/server.js` loop
iteration over a well-formed message can throw. -/
theorem stepS_no_crash {o : Oracles} {m : Json} (hm : wfMsg m = true)
    (hs : ∀ d b, isExnResp (o.sendResp d b) = false) :
    (stepS o m).2 = false := by
  unfold stepS
  rcases hg : msgGuard m with u | og
  · exact absurd hg (msgGuard_no_error hm u)
  · rcases og with _ | ⟨w, text⟩
    · simp [hg]
    · simp only [hg]
      split
      · rfl
      · rename_i rv hrv
        simpa [sendWaTextEv, isExnResp] using hs w rv

/-- Under no-exception sends and well-formed messages the `src/server.js`
loop visits every message: its trace is the concatenation of the per-message
traces and no iteration aborts the rest. -/
theorem routeLoopS_complete {o : Oracles}
    (hs : ∀ d b, isExnResp (o.sendResp d b) = false) :
    ∀ {ms : List Json}, (∀ m ∈ ms, wfMsg m = true) →
      routeLoopS o ms = ((ms.map (fun m => (stepS o m).1)).flatten, false) := by
  intro ms
  induction ms with
  | nil => intro _; rfl
  | cons m ms ih =>
    intro hw
    have hc := stepS_no_crash (hw m (by simp)) hs
    have ih' := ih (fun m' hm' => hw m' (by simp [hm']))
    simp only [routeLoopS, hc]
    simp [ih']

/-- A message passing all guards always produces its AI-backend call,
whatever the oracles answer. -/
theorem stepS_aiCall {o : Oracles} {m : Json} {w : Json} {text : String}
    (hg : msgGuard m = .ok (some (w, text))) :
    Ev.aiCall w text ∈ (stepS o m).1 := by
  unfold stepS
  rw [hg]
  simp only [getAIReplyEv_fst, sendWaTextEv_fst]
  split <;> simp

/-- Forward events are never AI calls. -/
theorem aiCall_not_mem_forward {o : Oracles} {sk : Sink} {url : Option String}
    {b : String} {k : Json} {t : String} :
    Ev.aiCall k t ∉ (forwardRawJSONEv o sk url b).1 := by
  intro h
  rcases forwardRawJSONEv_mem h with ⟨u, _, he⟩
  exact Ev.noConfusion he

/-- One first-variant request preserves handoff membership and issues no AI
call for a conversation already in handoff mode. -/
theorem handlerA_handoff {cfg : Config} {o : Oracles}
    {hmacHex : String → String → String} {st : HandoffMap} {raw : String}
    {sig : Option String} {k : Json} (hk : st.contains k = true) :
    (handlerA cfg o hmacHex st raw sig).1.contains k = true ∧
    ∀ t, Ev.aiCall k t ∉ (handlerA cfg o hmacHex st raw sig).2 := by
  unfold handlerA
  by_cases hv : verifySignature hmacHex cfg.secret raw sig = false
  · rw [if_pos hv]
    exact ⟨hk, by simp⟩
  · rw [if_neg hv]
    split
    · refine ⟨hk, fun t ht => ?_⟩
      simp only [List.mem_cons] at ht
      rcases ht with ht | ht
      · exact Ev.noConfusion ht
      · exact aiCall_not_mem_forward ht
    · split
      · refine ⟨hk, fun t ht => ?_⟩
        simp only [List.mem_cons] at ht
        rcases ht with ht | ht
        · exact Ev.noConfusion ht
        · exact aiCall_not_mem_forward ht
      · rename_i msgs hmsgs
        rcases @routeLoopA_handoff cfg o raw k st msgs hk with ⟨h1, h2⟩
        refine ⟨h1, fun t ht => ?_⟩
        simp only [List.mem_cons, List.mem_append] at ht
        rcases ht with (ht | ht) | ht
        · exact Ev.noConfusion ht
        · exact aiCall_not_mem_forward ht
        · exact h2 t ht

/-- One second-variant request preserves handoff membership and issues no AI
call for a conversation already in handoff mode. -/
theorem handlerB_handoff {cfg : Config} {o : Oracles}
    {hmacHex : String → String → String} {st : HandoffMap} {raw : String}
    {sig : Option String} {k : Json} (hk : st.contains k = true) :
    (handlerB cfg o hmacHex st raw sig).1.contains k = true ∧
    ∀ t, Ev.aiCall k t ∉ (handlerB cfg o hmacHex st raw sig).2 := by
  unfold handlerB
  by_cases hv : verifySignature hmacHex cfg.secret raw sig = false
  · rw [if_pos hv]
    exact ⟨hk, by simp⟩
  · rw [if_neg hv]
    have hfan : ∀ t, Ev.aiCall k t ∉
        ((fanOut o [(Sink.threeCx, cfg.threeCxUrl), (Sink.chatwoot, cfg.chatwootUrl)]
          raw).map Prod.fst).flatten := by
      intro t ht
      rcases fanOut_flatten_mem ht with ⟨sk, u, he⟩
      exact Ev.noConfusion he
    split
    · refine ⟨hk, fun t ht => ?_⟩
      simp only [List.mem_cons] at ht
      rcases ht with ht | ht
      · exact Ev.noConfusion ht
      · exact hfan t ht
    · split
      · refine ⟨hk, fun t ht => ?_⟩
        simp only [List.mem_cons] at ht
        rcases ht with ht | ht
        · exact Ev.noConfusion ht
        · exact hfan t ht
      · rename_i msgs hmsgs
        rcases @routeLoopB_handoff cfg o k st msgs hk with ⟨h1, h2⟩
        refine ⟨h1, fun t ht => ?_⟩
        simp only [List.mem_cons, List.mem_append] at ht
        rcases ht with (ht | ht) | ht
        · exact Ev.noConfusion ht
        · exact hfan t ht
        · exact h2 t ht

/-- Over any sequence of later inbound events, a conversation in handoff mode
stays in handoff mode and never receives an AI-backend call (first variant). -/
theorem runA_handoff {cfg : Config} {o : Oracles}
    {hmacHex : String → String → String} {k : Json} :
    ∀ {st : HandoffMap} {events : List (String × Option String)},
      st.contains k = true →
      (runA cfg o hmacHex st events).1.contains k = true ∧
      ∀ t, Ev.aiCall k t ∉ (runA cfg o hmacHex st events).2 := by
  intro st events
  induction events generalizing st with
  | nil => intro hk; exact ⟨hk, by simp [runA]⟩
  | cons ev es ih =>
    intro hk
    obtain ⟨raw, sig⟩ := ev
    rcases @handlerA_handoff cfg o hmacHex st raw sig k hk with ⟨h1, h2⟩
    rcases ih h1 with ⟨ih1, ih2⟩
    refine ⟨ih1, fun t ht => ?_⟩
    simp only [runA, List.mem_append] at ht
    rcases ht with ht | ht
    · exact h2 t ht
    · exact ih2 t ht

/-- Over any sequence of later inbound events, a conversation in handoff mode
stays in handoff mode and never receives an AI-backend call (second
variant). -/
theorem runB_handoff {cfg : Config} {o : Oracles}
    {hmacHex : String → String → String} {k : Json} :
    ∀ {st : HandoffMap} {events : List (String × Option String)},
      st.contains k = true →
      (runB cfg o hmacHex st events).1.contains k = true ∧
      ∀ t, Ev.aiCall k t ∉ (runB cfg o hmacHex st events).2 := by
  intro st events
  induction events generalizing st with
  | nil => intro hk; exact ⟨hk, by simp [runB]⟩
  | cons ev es ih =>
    intro hk
    obtain ⟨raw, sig⟩ := ev
    rcases @handlerB_handoff cfg o hmacHex st raw sig k hk with ⟨h1, h2⟩
    rcases ih h1 with ⟨ih1, ih2⟩
    refine ⟨ih1, fun t ht => ?_⟩
    simp only [runB, List.mem_append] at ht
    rcases ht with ht | ht
    · exact h2 t ht
    · exact ih2 t ht

/-- Where each forwarded byte-payload in a first-variant trace comes from:
the Chatwoot call site always sends the original raw body, the 3CX call site
always sends the summary-injected copy. -/
theorem handlerA_forward_payload {cfg : Config} {o : Oracles}
    {hmacHex : String → String → String} {st : HandoffMap} {raw : String}
    {sig : Option String} {sk : Sink} {u p : String}
    (h : Ev.forward sk u p ∈ (handlerA cfg o hmacHex st raw sig).2) :
    (sk = Sink.chatwoot ∧ p = raw) ∨
    (sk = Sink.threeCx ∧ p = injectSummaryIntoPayload raw "this is the summary") := by
  unfold handlerA at h
  by_cases hv : verifySignature hmacHex cfg.secret raw sig = false
  · rw [if_pos hv] at h
    simp at h
  · rw [if_neg hv] at h
    have hfwd : ∀ (hm : Ev.forward sk u p ∈
        (forwardRawJSONEv o Sink.chatwoot cfg.chatwootUrl raw).1),
        (sk = Sink.chatwoot ∧ p = raw) ∨
        (sk = Sink.threeCx ∧ p = injectSummaryIntoPayload raw "this is the summary") := by
      intro hm
      rcases forwardRawJSONEv_mem hm with ⟨uu, _, he⟩
      cases he
      exact Or.inl ⟨rfl, rfl⟩
    have hloop : ∀ {msgs : List Json} (hm : Ev.forward sk u p ∈
        (routeLoopA cfg o raw st msgs).2.1),
        (sk = Sink.chatwoot ∧ p = raw) ∨
        (sk = Sink.threeCx ∧ p = injectSummaryIntoPayload raw "this is the summary") := by
      intro msgs hm
      rcases routeLoopA_mem hm with ⟨uu, he⟩ | ⟨w, t, he⟩ | ⟨w, b, he⟩ | ⟨d, bb, he⟩
      · cases he
        exact Or.inr ⟨rfl, rfl⟩
      · exact Ev.noConfusion he
      · exact Ev.noConfusion he
      · exact Ev.noConfusion he
    split at h
    · simp only [List.mem_cons] at h
      rcases h with h | h
      · exact Ev.noConfusion h
      · exact hfwd h
    · split at h
      · simp only [List.mem_cons] at h
        rcases h with h | h
        · exact Ev.noConfusion h
        · exact hfwd h
      · simp only [List.mem_cons, List.mem_append] at h
        rcases h with (h | h) | h
        · exact Ev.noConfusion h
        · exact hfwd h
        · exact hloop h

theorem zip_self_countP_ne (l : List Char) :
    (l.zip l).countP (fun p => p.1 != p.2) = 0 := by
  induction l with
  | nil => rfl
  | cons c cs ih => simp [List.countP_cons, ih]

theorem oneCharMutation_ne {a b : String} (h : oneCharMutation a b = true) :
    a ≠ b := by
  intro e
  subst e
  unfold oneCharMutation at h
  simp [zip_self_countP_ne] at h

theorem oneCharMutation_length {a b : String} (h : oneCharMutation a b = true) :
    a.data.length = b.data.length := by
  unfold oneCharMutation at h
  simp only [Bool.and_eq_true, beq_iff_eq] at h
  exact h.1

theorem oneCharMutation_data_ne {a b : String} (h : oneCharMutation a b = true) :
    a.data ≠ b.data := by
  intro e
  exact oneCharMutation_ne h (by
    cases a
    cases b
    exact congrArg String.mk e)

/-- The well-formed header is never the empty string. -/
theorem sha_header_ne_empty (x : String) : "sha256=" ++ x ≠ "" := by
  intro e
  have h := congrArg String.data e
  rw [String.data_append] at h
  simp at h

/-- With a configured (non-empty) secret, the verifier accepts the header it
itself would compute — for any keyed-hash primitive. -/
theorem verifySignature_good (hmacHex : String → String → String)
    (secret raw : String) (hs : secret ≠ "") :
    verifySignature hmacHex secret raw (some ("sha256=" ++ hmacHex secret raw)) = true := by
  simp only [verifySignature]
  rw [if_neg (by
    rintro (h | h)
    · exact sha_header_ne_empty _ h
    · exact hs h)]
  unfold timingSafeEqualChecked
  rw [if_neg (by simp)]
  simp

/-- Any header other than the recomputed one is rejected: a caught length
mismatch or a failed constant-time comparison both yield `false`. -/
theorem verifySignature_reject (hmacHex : String → String → String)
    (secret raw : String) {s : String}
    (h : s ≠ "sha256=" ++ hmacHex secret raw) :
    verifySignature hmacHex secret raw (some s) = false := by
  simp only [verifySignature]
  by_cases h0 : s = "" ∨ secret = ""
  · rw [if_pos h0]
  · rw [if_neg h0]
    unfold timingSafeEqualChecked
    by_cases hl : s.data.length ≠ ("sha256=" ++ hmacHex secret raw).data.length
    · rw [if_pos hl]
    · rw [if_neg hl]
      have hd : s.data ≠ ("sha256=" ++ hmacHex secret raw).data := by
        intro e
        apply h
        cases s
        exact congrArg String.mk e
      simpa using hd

/-! ## Claims -/

/-- **C1** (confirmed): for every inbound POST event whose signature
verifies, the 200 acknowledgment to the source is the first event of the
handler trace — it is written before any outbound network call (observer
fan-out, AI backend, summary backend, or messaging API) begins.  The oracles
are universally quantified, so this covers the success path and every
downstream-failure path: no behaviour of the downstream services can move or
suppress the acknowledgment. -/
theorem C1_ack_before_any_outbound :
    ∀ (cfg : Config) (o : Oracles) (hmacHex : String → String → String)
      (st : HandoffMap) (raw : String) (sig : Option String),
      verifySignature hmacHex cfg.secret raw sig = true →
      (∃ t, handlerS cfg o hmacHex raw sig = Ev.status 200 :: t) ∧
      (∃ t, (handlerA cfg o hmacHex st raw sig).2 = Ev.status 200 :: t) ∧
      (∃ t, (handlerB cfg o hmacHex st raw sig).2 = Ev.status 200 :: t) :=
  fun _ _ _ _ _ _ hv => ⟨handlerS_ack hv, handlerA_ack hv, handlerB_ack hv⟩

theorem C1_ack_before_any_outbound_witness :
    verifySignature hmacConstH cfgFull.secret rawTwoMsgs (some "sha256=h") = true ∧
    ((∃ t, handlerS cfgFull oraclesOk hmacConstH rawTwoMsgs (some "sha256=h") =
        Ev.status 200 :: t) ∧
     (∃ t, (handlerA cfgFull oraclesOk hmacConstH [] rawTwoMsgs (some "sha256=h")).2 =
        Ev.status 200 :: t) ∧
     (∃ t, (handlerB cfgFull oraclesOk hmacConstH [] rawTwoMsgs (some "sha256=h")).2 =
        Ev.status 200 :: t)) :=
  ⟨by decide,
   C1_ack_before_any_outbound cfgFull oraclesOk hmacConstH [] rawTwoMsgs
     (some "sha256=h") (by decide)⟩

/-- **C2** (confirmed): once the handoff flag holds for a conversation id, it
holds after any sequence of later inbound events (no inbound event resets
it), and no AI-backend call is ever issued for that id in any later message
of any later event — whatever the message text, including text matching the
handoff keywords again.  Proved for both routing variants. -/
theorem C2_handoff_permanent :
    ∀ (cfg : Config) (o : Oracles) (hmacHex : String → String → String)
      (st : HandoffMap) (events : List (String × Option String)) (k : Json),
      st.contains k = true →
      ((runA cfg o hmacHex st events).1.contains k = true ∧
        ∀ t, Ev.aiCall k t ∉ (runA cfg o hmacHex st events).2) ∧
      ((runB cfg o hmacHex st events).1.contains k = true ∧
        ∀ t, Ev.aiCall k t ∉ (runB cfg o hmacHex st events).2) :=
  fun _ _ _ _ _ _ hk => ⟨runA_handoff hk, runB_handoff hk⟩

theorem C2_handoff_permanent_witness :
    List.contains [Json.str "B"] (Json.str "B") = true ∧
    (((runA cfgFull oraclesOk hmacConstH [Json.str "B"]
        [(rawTwoMsgs, some "sha256=h")]).1.contains (Json.str "B") = true ∧
      ∀ t, Ev.aiCall (Json.str "B") t ∉
        (runA cfgFull oraclesOk hmacConstH [Json.str "B"]
          [(rawTwoMsgs, some "sha256=h")]).2) ∧
     ((runB cfgFull oraclesOk hmacConstH [Json.str "B"]
        [(rawTwoMsgs, some "sha256=h")]).1.contains (Json.str "B") = true ∧
      ∀ t, Ev.aiCall (Json.str "B") t ∉
        (runB cfgFull oraclesOk hmacConstH [Json.str "B"]
          [(rawTwoMsgs, some "sha256=h")]).2)) :=
  ⟨by decide,
   C2_handoff_permanent cfgFull oraclesOk hmacConstH [Json.str "B"]
     [(rawTwoMsgs, some "sha256=h")] (Json.str "B") (by decide)⟩

/-- **C3** (code bug): with an empty or whitespace-only
`HANDOFF_KEYWORDS` configuration, the filtered keyword list is empty, the
compiled pattern is the empty string, and `new RegExp("", "i")` matches
**every** input — so the classifier returns `true` for every text, while the
spec requires a classifier that never matches. -/
theorem C3_empty_keyword_config_matches_all (text : String) :
    handoffTest "" text = true ∧ handoffTest " , " text = true :=
  ⟨rfl, rfl⟩

/-- **C8** (confirmed): the signature verifier is total — it returns `false`
(rather than throwing) on a missing header, an empty header, a missing
secret, and on any header value whose length differs from the well-formed
`sha256=<hex>` value (the `crypto.timingSafeEqual` length exception is caught
and mapped to `false`).  Totality itself is by construction: the embedding is
a total function and the only throwing primitive is wrapped in the modelled
`try/catch`. -/
theorem C8_verifier_total :
    ∀ (hmacHex : String → String → String) (secret raw : String)
      (sig : Option String),
      verifySignature hmacHex secret raw none = false ∧
      verifySignature hmacHex secret raw (some "") = false ∧
      (secret = "" → verifySignature hmacHex secret raw sig = false) ∧
      (∀ s, sig = some s →
        s.data.length ≠ ("sha256=" ++ hmacHex secret raw).data.length →
        verifySignature hmacHex secret raw sig = false) := by
  intro hmacHex secret raw sig
  refine ⟨rfl, by simp [verifySignature], ?_, ?_⟩
  · intro hsec
    cases sig with
    | none => rfl
    | some s => simp [verifySignature, hsec]
  · intro s hs hl
    subst hs
    simp only [verifySignature]
    by_cases h0 : s = "" ∨ secret = ""
    · rw [if_pos h0]
    · rw [if_neg h0]
      unfold timingSafeEqualChecked
      rw [if_pos hl]

theorem C8_verifier_total_witness :
    verifySignature hmacConcat "k" "x" none = false ∧
    verifySignature hmacConcat "k" "x" (some "") = false ∧
    verifySignature hmacConcat "" "x" (some "sig") = false ∧
    verifySignature hmacConcat "k" "x" (some "zz") = false :=
  ⟨(C8_verifier_total hmacConcat "k" "x" (some "zz")).1,
   (C8_verifier_total hmacConcat "k" "x" (some "zz")).2.1,
   (C8_verifier_total hmacConcat "" "x" (some "sig")).2.2.1 rfl,
   (C8_verifier_total hmacConcat "k" "x" (some "zz")).2.2.2 "zz" rfl (by decide)⟩

/-- **C4** (corrected, counterexample): on a payload that *parses* but has no
text message, `injectSummaryIntoPayload` does **not** return bytes identical
to the input — the non-catch path always re-serializes the parsed object, and
a byte-level difference (here: a space) survives.  Only the parse-failure
path returns the original bytes. -/
theorem C4_inject_changes_bytes :
    injectSummaryIntoPayload c4raw "s" ≠ c4raw ∧
    JSONParse c4raw = some (Json.obj [("a", Json.num 1)]) ∧
    payloadHasTextMsg (Json.obj [("a", Json.num 1)]) = false := by decide

/-- **C4** (corrected, amended): if parsing fails, `inject` returns the input
bytes unchanged; if parsing succeeds and the located messages node is not an
array (hence there is certainly no text message), it returns the
re-serialization of the parsed payload — semantically the same JSON, but
byte-identical only when the input is already in canonical serialized form;
and when a messages array is present but contains no injectable text message,
the message list itself is left unchanged before re-serialization. -/
theorem C4_inject_amended :
    ∀ (raw s : String),
      (JSONParse raw = none → injectSummaryIntoPayload raw s = raw) ∧
      (∀ p, JSONParse raw = some p → msgsIsArray p = false →
        injectSummaryIntoPayload raw s = stringifyJson p) ∧
      (∀ xs, (∀ m ∈ xs, injectableMsg m = false) → mutateFirstMsg s xs = xs) := by
  intro raw s
  refine ⟨?_, ?_, ?_⟩
  · intro h
    unfold injectSummaryIntoPayload
    rw [h]
  · intro p hp hna
    unfold injectSummaryIntoPayload
    simp only [hp]
    unfold msgsIsArray at hna
    split
    · rename_i heq
      rw [heq] at hna
      simp at hna
    · rfl
  · intro xs hx
    induction xs with
    | nil => rfl
    | cons m ms ih =>
      have hm := hx m (by simp)
      have ih' := ih (fun m' h' => hx m' (by simp [h']))
      simp [mutateFirstMsg, hm, ih']

theorem C4_inject_amended_witness :
    injectSummaryIntoPayload "nope" "s" = "nope" ∧
    injectSummaryIntoPayload c4raw "s" = stringifyJson (Json.obj [("a", Json.num 1)]) ∧
    mutateFirstMsg "s" [Json.null] = [Json.null] :=
  ⟨(C4_inject_amended "nope" "s").1 (by decide),
   (C4_inject_amended c4raw "s").2.1 (Json.obj [("a", Json.num 1)]) (by decide) (by decide),
   (C4_inject_amended c4raw "s").2.2 [Json.null] (by decide)⟩

/-- **C5** (corrected, counterexample): in an event with two qualifying text
messages, a messaging-API send that fails by *transport exception* is not
caught (`sendWaText` has no `try/catch`), so it aborts the loop: the first
message's AI call happens, the second message's AI call is never issued.
The acknowledgment already sent is unaffected (still exactly one 200). -/
theorem C5_send_exception_aborts_rest :
    Ev.aiCall (Json.str "A") "hi" ∈
      handlerS cfgPlain oraclesSendExn hmacConstH rawPlainTwo (some "sha256=h") ∧
    Ev.aiCall (Json.str "B") "yo" ∉
      handlerS cfgPlain oraclesSendExn hmacConstH rawPlainTwo (some "sha256=h") ∧
    extractedMsgs ((JSONParse rawPlainTwo).getD Json.null) = [msgA, msgB] ∧
    msgGuard msgB = .ok (some (Json.str "B", "yo")) ∧
    statusEvs (handlerS cfgPlain oraclesSendExn hmacConstH rawPlainTwo
      (some "sha256=h")) = [200] := by decide

/-- **C5** (corrected, amended): when no messaging-API send rejects (HTTP
failures of any kind, malformed AI responses, and AI transport exceptions are
all allowed — they are caught and treated as "no reply"), the `src/server.js`
loop processes every well-formed message independently: the trace is the
concatenation of per-message traces, nothing aborts, every qualifying message
gets its AI call whatever the oracles answer, and the acknowledgment is still
exactly one 200. -/
theorem C5_outbound_failure_isolated :
    ∀ (o : Oracles) (msgs : List Json) (cfg : Config)
      (hmacHex : String → String → String) (raw : String) (sig : Option String),
      (∀ d b, isExnResp (o.sendResp d b) = false) →
      (∀ m ∈ msgs, wfMsg m = true) →
      routeLoopS o msgs = ((msgs.map (fun m => (stepS o m).1)).flatten, false) ∧
      (∀ m ∈ msgs, ∀ w t, msgGuard m = .ok (some (w, t)) →
        Ev.aiCall w t ∈ (routeLoopS o msgs).1) ∧
      (verifySignature hmacHex cfg.secret raw sig = true →
        statusEvs (handlerS cfg o hmacHex raw sig) = [200]) := by
  intro o msgs cfg hmacHex raw sig hs hw
  refine ⟨routeLoopS_complete hs hw, ?_, fun hv => handlerS_statusEvs hv⟩
  intro m hm w t hg
  simp only [routeLoopS_complete hs hw]
  exact List.mem_flatten.mpr
    ⟨(stepS o m).1, List.mem_map.mpr ⟨m, hm, rfl⟩, stepS_aiCall hg⟩

theorem C5_outbound_failure_isolated_witness :
    routeLoopS oraclesOk [msgA] =
      (([msgA].map (fun m => (stepS oraclesOk m).1)).flatten, false) ∧
    Ev.aiCall (Json.str "A") "hi" ∈ (routeLoopS oraclesOk [msgA]).1 ∧
    statusEvs (handlerS cfgPlain oraclesOk hmacConstH rawPlainTwo
      (some "sha256=h")) = [200] := by
  have h := C5_outbound_failure_isolated oraclesOk [msgA] cfgPlain hmacConstH
    rawPlainTwo (some "sha256=h") (fun d b => rfl) (by decide)
  exact ⟨h.1, h.2.1 msgA (by simp) (Json.str "A") "hi" (by decide), h.2.2 (by decide)⟩

/-- **C6** (confirmed): a missing (or empty) target URL makes a forward a
silent no-op, not a failure; a non-success status or transport exception is
recorded as a failure result for that target only — the function is total and
never lets the exception past the boundary; fan-out is an independent map over
the targets, so each target's delivery depends only on its own oracle
response: with N targets of which exactly one fails, every other target with
an ok response is delivered to (`okRes`); and the acknowledgment of the
fanning-out handler is one 200 for every oracle behaviour. -/
theorem C6_fanout_isolated_best_effort :
    (∀ (o : Oracles) (sk : Sink) (b : String),
      forwardRawJSONEv o sk none b = ([], .skipped) ∧
      forwardRawJSONEv o sk (some "") b = ([], .skipped)) ∧
    (∀ (o : Oracles) (ts : List (Sink × Option String)) (b : String),
      fanOut o ts b = ts.map (fun t => forwardRawJSONEv o t.1 t.2 b)) ∧
    (∀ (o : Oracles) (sk : Sink) (u b msg : String), u ≠ "" →
      o.forwardResp u b = .exn msg →
      forwardRawJSONEv o sk (some u) b = ([Ev.forward sk u b], .errorRes msg)) ∧
    (∀ (o : Oracles) (sk : Sink) (u b : String) (stat : Nat) (body : String),
      u ≠ "" → o.forwardResp u b = .resp true stat body →
      forwardRawJSONEv o sk (some u) b = ([Ev.forward sk u b], .okRes)) ∧
    (∀ (cfg : Config) (o : Oracles) (hmacHex : String → String → String)
       (st : HandoffMap) (raw : String) (sig : Option String),
      verifySignature hmacHex cfg.secret raw sig = true →
      statusEvs (handlerB cfg o hmacHex st raw sig).2 = [200]) := by
  refine ⟨fun o sk b => ⟨rfl, by simp [forwardRawJSONEv]⟩, fun _ _ _ => rfl,
    ?_, ?_, fun _ _ _ _ _ _ hv => handlerB_statusEvs hv⟩
  · intro o sk u b msg hu hr
    simp [forwardRawJSONEv, hu, hr]
  · intro o sk u b stat body hu hr
    simp [forwardRawJSONEv, hu, hr]

theorem C6_fanout_isolated_best_effort_witness :
    forwardRawJSONEv oracleOneFail Sink.threeCx (some "cx") "body" =
      ([Ev.forward Sink.threeCx "cx" "body"], .errorRes "down") ∧
    forwardRawJSONEv oracleOneFail Sink.chatwoot (some "cw") "body" =
      ([Ev.forward Sink.chatwoot "cw" "body"], .okRes) ∧
    forwardRawJSONEv oracleOneFail Sink.chatwoot none "body" = ([], .skipped) ∧
    statusEvs (handlerB cfgPlain oracleOneFail hmacConstH [] "x"
      (some "sha256=h")).2 = [200] :=
  ⟨C6_fanout_isolated_best_effort.2.2.1 oracleOneFail Sink.threeCx "cx" "body"
     "down" (by decide) rfl,
   C6_fanout_isolated_best_effort.2.2.2.1 oracleOneFail Sink.chatwoot "cw" "body"
     200 "" (by decide) rfl,
   (C6_fanout_isolated_best_effort.1 oracleOneFail Sink.chatwoot "body").1,
   C6_fanout_isolated_best_effort.2.2.2.2 cfgPlain oracleOneFail hmacConstH []
     "x" (some "sha256=h") (by decide)⟩

/-- **C7** (corrected, counterexample): the claim quantifies over *every*
secret, but with an empty secret the verifier's `!META_APP_SECRET` guard
rejects even the correctly-formed signature header, so "verify returns true"
fails at `secret = ""`. -/
theorem C7_counterexample_empty_secret :
    verifySignature hmacConcat "" "x" (some ("sha256=" ++ hmacConcat "" "x")) = false := by
  decide

/-- **C7** (corrected, amended): for every non-empty secret and every body,
the verifier accepts the header formed from the digest of the body under the
secret; every single-byte mutation of the signature header is rejected; and a
single-byte mutation of the body is rejected whenever the digest of the
mutated body differs from the original digest — which is where the
embedding's generic `hmacHex` parameter stands in for HMAC-SHA256, whose
collision-freedom on such pairs is a cryptographic assumption, not a program
property. -/
theorem C7_signature_scheme :
    ∀ (hmacHex : String → String → String) (secret raw : String), secret ≠ "" →
      verifySignature hmacHex secret raw
        (some ("sha256=" ++ hmacHex secret raw)) = true ∧
      (∀ sig', oneCharMutation ("sha256=" ++ hmacHex secret raw) sig' = true →
        verifySignature hmacHex secret raw (some sig') = false) ∧
      (∀ raw', oneCharMutation raw raw' = true →
        hmacHex secret raw' ≠ hmacHex secret raw →
        verifySignature hmacHex secret raw'
          (some ("sha256=" ++ hmacHex secret raw)) = false) := by
  intro hmacHex secret raw hs
  refine ⟨verifySignature_good hmacHex secret raw hs, ?_, ?_⟩
  · intro sig' hmut
    exact verifySignature_reject hmacHex secret raw (Ne.symm (oneCharMutation_ne hmut))
  · intro raw' hmut hne
    apply verifySignature_reject hmacHex secret raw'
    intro e
    have hd := congrArg String.data e
    rw [String.data_append, String.data_append] at hd
    have h2 := List.append_cancel_left hd
    exact hne (String.ext h2).symm

theorem C7_signature_scheme_witness :
    verifySignature hmacConcat "k" "ab"
      (some ("sha256=" ++ hmacConcat "k" "ab")) = true ∧
    verifySignature hmacConcat "k" "ab" (some "sha256=kaX") = false ∧
    verifySignature hmacConcat "k" "aX"
      (some ("sha256=" ++ hmacConcat "k" "ab")) = false := by
  have h := C7_signature_scheme hmacConcat "k" "ab" (by decide)
  exact ⟨h.1, h.2.1 "sha256=kaX" (by decide), h.2.2 "aX" (by decide) (by decide)⟩

/-- **C9** (confirmed): in the variant that injects, every byte-payload the
trace forwards to the Chatwoot call site is exactly the original received
body — never the annotated copy — and every payload forwarded to the 3CX call
site is exactly the derived injected copy.  The injector itself is a pure
function of the original bytes, which remain what every other consumer
receives. -/
theorem C9_observer_gets_original_bytes :
    ∀ (cfg : Config) (o : Oracles) (hmacHex : String → String → String)
      (st : HandoffMap) (raw : String) (sig : Option String) (u p : String),
      (Ev.forward Sink.chatwoot u p ∈ (handlerA cfg o hmacHex st raw sig).2 →
        p = raw) ∧
      (Ev.forward Sink.threeCx u p ∈ (handlerA cfg o hmacHex st raw sig).2 →
        p = injectSummaryIntoPayload raw "this is the summary") := by
  intro cfg o hmacHex st raw sig u p
  constructor
  · intro h
    rcases handlerA_forward_payload h with ⟨_, hp⟩ | ⟨hsk, _⟩
    · exact hp
    · exact Sink.noConfusion hsk
  · intro h
    rcases handlerA_forward_payload h with ⟨hsk, _⟩ | ⟨_, hp⟩
    · exact Sink.noConfusion hsk
    · exact hp

theorem C9_observer_gets_original_bytes_witness :
    Ev.forward Sink.chatwoot "cw" rawTwoMsgs ∈
      (handlerA cfgFull oraclesOk hmacConstH [] rawTwoMsgs (some "sha256=h")).2 ∧
    rawTwoMsgs = rawTwoMsgs := by
  have hm : Ev.forward Sink.chatwoot "cw" rawTwoMsgs ∈
      (handlerA cfgFull oraclesOk hmacConstH [] rawTwoMsgs (some "sha256=h")).2 := by
    decide
  exact ⟨hm, (C9_observer_gets_original_bytes cfgFull oraclesOk hmacConstH []
    rawTwoMsgs (some "sha256=h") "cw" rawTwoMsgs).1 hm⟩

/-- **C10** (confirmed): the extraction chain
`entry?.[0]?.changes?.[0]?.value?.messages` is insensitive to any later
entries or later changes of the payload — a payload carrying extra entries or
changes yields exactly the messages of a payload with them removed, so every
routing loop behaves identically on the two: messages located anywhere but
the first entry's first change trigger no AI call, no handoff transition, and
no outbound send. -/
theorem C10_only_first_entry_first_change :
    ∀ (v : Json) (cs es : List Json) (cfg : Config) (o : Oracles)
      (raw : String) (st : HandoffMap),
      extractMessages (payloadWithTails v cs es) =
        extractMessages (payloadFirstOnly v) ∧
      routeLoopS o (extractedMsgs (payloadWithTails v cs es)) =
        routeLoopS o (extractedMsgs (payloadFirstOnly v)) ∧
      routeLoopA cfg o raw st (extractedMsgs (payloadWithTails v cs es)) =
        routeLoopA cfg o raw st (extractedMsgs (payloadFirstOnly v)) ∧
      routeLoopB cfg o st (extractedMsgs (payloadWithTails v cs es)) =
        routeLoopB cfg o st (extractedMsgs (payloadFirstOnly v)) := by
  intro v cs es cfg o raw st
  have he : extractMessages (payloadWithTails v cs es) =
      extractMessages (payloadFirstOnly v) := rfl
  have hm : extractedMsgs (payloadWithTails v cs es) =
      extractedMsgs (payloadFirstOnly v) := by
    unfold extractedMsgs
    rw [he]
  exact ⟨he, by rw [hm], by rw [hm], by rw [hm]⟩

end WaProxy
